import Mathlib

/-!
# Verification of the AlphaPy `sportstream` module

This file is a shallow embedding, in Lean 4, of the team/game statistics
engine of `alphapy/sportstream.py`:

* the streak calculator `get_streak`,
* the per-game helpers `get_point_margin`, `get_wins`, `get_losses`, `get_ties`,
* the typed feature schema materializer `add_features`,
* the per-team sequential statistics loop of `generate_team_frame`,
* the per-game loop of `main` over the season game frame,
* the merge-back loop of `main` together with `insert_model_data`,
* the delta computation `generate_delta_data`.

Conventions of the embedding:

* A possibly-missing floating point value (a score, a betting line, an
  over/under total, any of which may be `NaN` in the data) is modelled as
  `Option ℚ`, with `none` playing the role of `NaN`; `math.isnan` becomes a
  match on `none`.  Comparisons against `NaN` are `False` in Python, so the
  Boolean comparison helpers below return `false` on `none`.
* Pandas frames indexed by `reset_index` have labels `0, 1, ...`, so label
  based indexing (`series[i]`, `.at[index]`, `.iloc[pos]`) coincides with
  positional indexing and is modelled with list indexing.
* Raised exceptions are modelled with `Except String`, the string being the
  message passed to the Python exception constructor.
-/

namespace Sportstream

/-- `PSEP` from `alphapy.globs`: the period separator used by
`PSEP.join([prefix, key])` to build prefixed column names such as
`home.wins`. -/
def PSEP : String := "."

/-- `PSEP.join([pfx, key])` when `pfx` is non-empty; the raw key otherwise
(mirrors the `if prefix:` guards of `add_features` and
`insert_model_data`). -/
def pkey (pfx key : String) : String :=
  if pfx ≠ "" then pfx ++ PSEP ++ key else key

/-!
## The streak calculator (`get_streak`, sportstream.py lines 824-831)

```python
if window <= 0:
    window = len(series)
i = start_index
streak = 0
while i >= 0 and (start_index-i+1) < window and series[i]:
    streak += 1
    i -= 1
return streak
```
-/

/-- The while-loop of `get_streak`: scanning from position `i` downwards,
while `i >= 0 and (start_index - i + 1) < w and series[i]`, counting one per
iteration.  The recursion on `i : Nat` stops after position `0` has been
processed, which models the `i >= 0` guard. -/
def streakLoop (series : List Bool) (start_index : Nat) (w : Int) : Nat → Nat
  | 0 =>
    if (start_index : Int) - 0 + 1 < w ∧ series.getD 0 false then 1 else 0
  | i+1 =>
    if (start_index : Int) - (i+1 : Nat) + 1 < w ∧ series.getD (i+1) false then
      1 + streakLoop series start_index w i
    else 0

/-- `get_streak(series, start_index, window)`: a window of `0` or less is
replaced by the length of the series, then the backward while-loop runs from
`start_index`. -/
def get_streak (series : List Bool) (start_index : Nat) (window : Int) : Nat :=
  streakLoop series start_index
    (if window ≤ 0 then (series.length : Int) else window) start_index

/-- Modelled from the spec (claim C1): the length of the maximal trailing
run of `true` values ending at the given position, scanning backward,
unbounded (to the start of the sequence).  This is the specification-side
definition that `get_streak` is compared against. -/
def trailingRun (series : List Bool) : Nat → Nat
  | 0 => if series.getD 0 false then 1 else 0
  | i+1 => if series.getD (i+1) false then 1 + trailingRun series i else 0

/-- The streak loop started at position `i ≤ start_index` computes the
trailing run at `i`, capped by the remaining window budget
`w - (start_index - i) - 1`. -/
theorem streakLoop_eq_min (series : List Bool) (start_index : Nat) (w : Int) :
    ∀ i : Nat, i ≤ start_index →
      streakLoop series start_index w i =
        min (trailingRun series i) (w - (start_index - i : Nat) - 1).toNat := by
  intro i
  induction i with
  | zero =>
    intro _
    by_cases hs : series.getD 0 false = true
    · by_cases hw : (start_index : Int) - 0 + 1 < w
      · have h1 : streakLoop series start_index w 0 = 1 := if_pos ⟨hw, hs⟩
        have h2 : trailingRun series 0 = 1 := if_pos hs
        rw [h1, h2]
        omega
      · have h1 : streakLoop series start_index w 0 = 0 :=
          if_neg (fun hc => hw hc.1)
        have h2 : trailingRun series 0 = 1 := if_pos hs
        rw [h1, h2]
        omega
    · have h1 : streakLoop series start_index w 0 = 0 :=
        if_neg (fun hc => hs hc.2)
      have h2 : trailingRun series 0 = 0 := if_neg hs
      rw [h1, h2]
      omega
  | succ i ih =>
    intro hle
    have hrec := ih (Nat.le_of_succ_le hle)
    by_cases hs : series.getD (i+1) false = true
    · by_cases hw : (start_index : Int) - (i+1 : Nat) + 1 < w
      · have h1 : streakLoop series start_index w (i+1) =
            1 + streakLoop series start_index w i := if_pos ⟨hw, hs⟩
        have h2 : trailingRun series (i+1) = 1 + trailingRun series i :=
          if_pos hs
        rw [h1, h2, hrec]
        omega
      · have h1 : streakLoop series start_index w (i+1) = 0 :=
          if_neg (fun hc => hw hc.1)
        have h2 : trailingRun series (i+1) = 1 + trailingRun series i :=
          if_pos hs
        rw [h1, h2]
        omega
    · have h1 : streakLoop series start_index w (i+1) = 0 :=
        if_neg (fun hc => hs hc.2)
      have h2 : trailingRun series (i+1) = 0 := if_neg hs
      rw [h1, h2]
      omega

/-- `get_streak` computes the trailing run capped at `window - 1` (where an
unbounded window stands for the length of the series): the cap is one game
short of the requested window. -/
theorem get_streak_eq_min (series : List Bool) (pos : Nat) (window : Int) :
    get_streak series pos window =
      min (trailingRun series pos)
        ((if window ≤ 0 then (series.length : Int) else window) - 1).toNat := by
  unfold get_streak
  rw [streakLoop_eq_min series pos _ pos (Nat.le_refl pos)]
  simp

/-!
## Per-game helpers (sportstream.py lines 275-279, 369, 459, 549)
-/

/-- `get_point_margin(row, score, opponent_score)` (lines 275-279): the
margin defaults to `0` and is only assigned when neither score is NaN.  The
two cell values `row[score]` and `row[opponent_score]` are passed directly. -/
def get_point_margin (score opponent_score : Option ℚ) : ℚ :=
  match score, opponent_score with
  | some s, some o => s - o
  | _, _ => 0

/-- `get_wins` (line 369): `1 if point_margin > 0 else 0`. -/
def get_wins (point_margin : ℚ) : ℤ :=
  if point_margin > 0 then 1 else 0

/-- `get_losses` (line 459): `1 if point_margin < 0 else 0`. -/
def get_losses (point_margin : ℚ) : ℤ :=
  if point_margin < 0 then 1 else 0

/-- `get_ties` (line 549): `1 if point_margin == 0 else 0`. -/
def get_ties (point_margin : ℚ) : ℤ :=
  if point_margin = 0 then 1 else 0

/-!
## NaN-aware arithmetic and comparisons

A possibly-NaN float is an `Option ℚ`.  Python arithmetic propagates NaN;
Python comparisons with NaN are always `False`.
-/

/-- `x + l` where `x` is a real number and `l` may be NaN. -/
def nanAdd (x : ℚ) : Option ℚ → Option ℚ
  | none => none
  | some l => some (x + l)

/-- Negation of a possibly-NaN value (`-row['line']`). -/
def nanNeg : Option ℚ → Option ℚ
  | none => none
  | some l => some (-l)

/-- Python `v > 0` on a possibly-NaN value: `False` for NaN. -/
def nanGtZero : Option ℚ → Bool
  | none => false
  | some v => decide (v > 0)

/-- Python `v < 0` on a possibly-NaN value: `False` for NaN. -/
def nanLtZero : Option ℚ → Bool
  | none => false
  | some v => decide (v < 0)

/-- Python `v <= 0` on a possibly-NaN value: `False` for NaN. -/
def nanLeZero : Option ℚ → Bool
  | none => false
  | some v => decide (v ≤ 0)

/-!
## The game record and the team statistics row
-/

/-- One row of the raw game table: the columns that the per-row logic of
`generate_team_frame` and of `main`'s game-frame loop reads.  Scores, line
and over/under total may be NaN in the data (`none`). -/
structure GameRow where
  home_team : String
  away_team : String
  home_score : Option ℚ
  away_score : Option ℚ
  line : Option ℚ
  over_under : Option ℚ
deriving Repr, DecidableEq

/-- One Team Statistics Row: the columns of the team frame that the claims
concern, as computed by the per-row loop of `generate_team_frame`
(lines 1034-1069).  `cover_margin_game` is `Option ℚ` because line 1053
assigns `point_margin_game + line` unconditionally and the line may be NaN;
every other margin field is guarded by an `isnan` check or computed from
guarded fields, hence is a plain rational. -/
structure TeamRow where
  point_margin_game : ℚ
  wins : ℤ
  losses : ℤ
  ties : ℤ
  won_on_points : Bool
  lost_on_points : Bool
  cover_margin_game : Option ℚ
  won_on_spread : Bool
  lost_on_spread : Bool
  total_points : ℚ
  overunder_margin : ℚ
  over : Bool
  under : Bool
  point_win_streak : Nat
  point_loss_streak : Nat
  cover_win_streak : Nat
  cover_loss_streak : Nat
  over_streak : Nat
  under_streak : Nat
deriving Repr, DecidableEq

/-- The loop-carried state of `generate_team_frame`'s row loop: the
cumulative counters of the previous row (`tf['wins'].at[index-1]`, ...) and
the Boolean outcome columns filled in so far (rows `0 .. i-1`), which
`get_streak` scans backward over. -/
structure TeamAcc where
  wins : ℤ
  losses : ℤ
  ties : ℤ
  wonPts : List Bool
  lostPts : List Bool
  wonSpread : List Bool
  lostSpread : List Bool
  overs : List Bool
  unders : List Bool
deriving Repr, DecidableEq

/-- The state before the first row: counters `0` (the values `add_features`
materializes) and empty outcome histories. -/
def initAcc : TeamAcc := ⟨0, 0, 0, [], [], [], [], [], []⟩

/-- The state after emitting row `y`: the counters of `y` become the
previous-row counters, and each outcome flag of `y` is appended to its
column history. -/
def pushAcc (acc : TeamAcc) (y : TeamRow) : TeamAcc :=
  ⟨y.wins, y.losses, y.ties,
   acc.wonPts ++ [y.won_on_points], acc.lostPts ++ [y.lost_on_points],
   acc.wonSpread ++ [y.won_on_spread], acc.lostSpread ++ [y.lost_on_spread],
   acc.overs ++ [y.over], acc.unders ++ [y.under]⟩

/-- Role determination of lines 1035-1042: home branch first, then away,
else a `KeyError`; `some true` means the team plays at home. -/
def sideOf (team : String) (row : GameRow) : Option Bool :=
  if team = row.home_team then some true
  else if team = row.away_team then some false
  else none

/-- The streak series at row `i` out of `n`: the pandas column at the time
`get_streak` is called holds the computed flags for rows `0 .. i-1`
(`hist`), the flag just assigned at row `i`, and the `False` defaults of
`add_features` for the not-yet-visited rows. -/
def streakSeries (n i : Nat) (hist : List Bool) (f : Bool) : List Bool :=
  hist ++ [f] ++ List.replicate (n - (i + 1)) false

/-- The body of `generate_team_frame`'s row loop (lines 1034-1069) for row
`i` of `n`, once the role is known: `at_home` selects the score order and
the sign of the line. -/
def rowCalc (n i : Nat) (acc : TeamAcc) (row : GameRow) (at_home : Bool) :
    TeamRow :=
  let pm : ℚ :=
    if at_home then get_point_margin row.home_score row.away_score
    else get_point_margin row.away_score row.home_score
  let line : Option ℚ := if at_home then row.line else nanNeg row.line
  let wins := if i = 0 then get_wins pm else acc.wins + get_wins pm
  let losses := if i = 0 then get_losses pm else acc.losses + get_losses pm
  let ties := if i = 0 then get_ties pm else acc.ties + get_ties pm
  let won_on_points := decide (pm > 0)
  let lost_on_points := decide (pm < 0)
  let cover := nanAdd pm line
  let won_on_spread := nanGtZero cover
  let lost_on_spread := nanLeZero cover
  let total_points : ℚ :=
    match row.home_score, row.away_score with
    | some h, some a => h + a
    | _, _ => 0
  let overunder_margin : ℚ :=
    match row.over_under with
    | some ou => total_points - ou
    | none => 0
  let over := decide (overunder_margin > 0)
  let under := decide (overunder_margin < 0)
  { point_margin_game := pm, wins := wins, losses := losses, ties := ties,
    won_on_points := won_on_points, lost_on_points := lost_on_points,
    cover_margin_game := cover, won_on_spread := won_on_spread,
    lost_on_spread := lost_on_spread, total_points := total_points,
    overunder_margin := overunder_margin, over := over, under := under,
    point_win_streak := get_streak (streakSeries n i acc.wonPts won_on_points) i 0,
    point_loss_streak := get_streak (streakSeries n i acc.lostPts lost_on_points) i 0,
    cover_win_streak := get_streak (streakSeries n i acc.wonSpread won_on_spread) i 0,
    cover_loss_streak := get_streak (streakSeries n i acc.lostSpread lost_on_spread) i 0,
    over_streak := get_streak (streakSeries n i acc.overs over) i 0,
    under_streak := get_streak (streakSeries n i acc.unders under) i 0 }

/-- One iteration of the row loop: role determination then `rowCalc`,
threading the updated state. -/
def teamStep (team : String) (n i : Nat) (acc : TeamAcc) (row : GameRow) :
    Except String (TeamRow × TeamAcc) :=
  match sideOf team row with
  | none => .error "Team not found in Team Frame"
  | some at_home =>
    let y := rowCalc n i acc row at_home
    .ok (y, pushAcc acc y)

/-- The row loop of `generate_team_frame` over the remaining rows, starting
at row index `i` with state `acc`; `n` is the total length of the team
frame (which fixes the length of the columns `get_streak` scans). -/
def teamLoop (team : String) (n : Nat) :
    Nat → TeamAcc → List GameRow → Except String (List TeamRow)
  | _, _, [] => .ok []
  | i, acc, row :: rest =>
    match teamStep team n i acc row with
    | .error e => .error e
    | .ok (y, acc') =>
      match teamLoop team n (i + 1) acc' rest with
      | .error e => .error e
      | .ok ys => .ok (y :: ys)

/-- `generate_team_frame(team, tf, home_team, away_team, window)`
(lines 1028-1108), restricted to the columns the claims concern: the per-row
loop over the team's partition.  (The day-offset columns, the streak
sum/average columns and the rolling/expanding aggregate columns of
lines 1070-1107, which no claim mentions, are not carried.) -/
def generate_team_frame (team : String) (rows : List GameRow) :
    Except String (List TeamRow) :=
  teamLoop team rows.length 0 initAcc rows

/-!
## Characterization of the row loop
-/

theorem teamStep_ok_acc {team : String} {n i : Nat} {acc : TeamAcc}
    {row : GameRow} {y : TeamRow} {acc' : TeamAcc}
    (h : teamStep team n i acc row = .ok (y, acc')) : acc' = pushAcc acc y := by
  unfold teamStep at h
  cases hside : sideOf team row with
  | none =>
    rw [hside] at h
    exact Except.noConfusion h
  | some b =>
    simp only [hside] at h
    injection h with h
    injection h with h1 h2
    rw [← h1]
    exact h2.symm

theorem teamStep_ok_row {team : String} {n i : Nat} {acc : TeamAcc}
    {row : GameRow} {y : TeamRow} {acc' : TeamAcc}
    (h : teamStep team n i acc row = .ok (y, acc')) :
    ∃ b, sideOf team row = some b ∧ y = rowCalc n i acc row b := by
  unfold teamStep at h
  cases hside : sideOf team row with
  | none =>
    rw [hside] at h
    exact Except.noConfusion h
  | some b =>
    simp only [hside] at h
    injection h with h
    injection h with h1 h2
    exact ⟨b, rfl, h1.symm⟩

theorem teamLoop_length (team : String) (n : Nat) :
    ∀ (rows : List GameRow) (i : Nat) (acc : TeamAcc) (ys : List TeamRow),
      teamLoop team n i acc rows = .ok ys → ys.length = rows.length := by
  intro rows
  induction rows with
  | nil =>
    intro i acc ys h
    simp only [teamLoop] at h
    injection h with h
    subst h
    rfl
  | cons row rest ih =>
    intro i acc ys h
    simp only [teamLoop] at h
    cases hstep : teamStep team n i acc row with
    | error e =>
      simp only [hstep] at h
      exact Except.noConfusion h
    | ok p =>
      obtain ⟨y, acc'⟩ := p
      simp only [hstep] at h
      cases hrest : teamLoop team n (i+1) acc' rest with
      | error e =>
        simp only [hrest] at h
        exact Except.noConfusion h
      | ok ys' =>
        simp only [hrest] at h
        injection h with h
        subst h
        simp [ih (i+1) acc' ys' hrest]

/-- Pointwise characterization of the row loop: row `j` of a successful run
is produced by `teamStep` from the state accumulated over the first `j`
output rows. -/
theorem teamLoop_get (team : String) (n : Nat) :
    ∀ (rows : List GameRow) (i : Nat) (acc : TeamAcc) (ys : List TeamRow),
      teamLoop team n i acc rows = .ok ys →
      ∀ (j : Nat) (hj : j < ys.length) (hr : j < rows.length),
        teamStep team n (i + j) (List.foldl pushAcc acc (ys.take j))
            (rows.get ⟨j, hr⟩) =
          .ok (ys.get ⟨j, hj⟩,
               pushAcc (List.foldl pushAcc acc (ys.take j)) (ys.get ⟨j, hj⟩)) := by
  intro rows
  induction rows with
  | nil =>
    intro i acc ys h j hj hr
    exact absurd hr (by simp)
  | cons row rest ih =>
    intro i acc ys h j hj hr
    simp only [teamLoop] at h
    cases hstep : teamStep team n i acc row with
    | error e =>
      simp only [hstep] at h
      exact Except.noConfusion h
    | ok p =>
      obtain ⟨y, acc'⟩ := p
      simp only [hstep] at h
      have hacc : acc' = pushAcc acc y := teamStep_ok_acc hstep
      subst hacc
      cases hrest : teamLoop team n (i+1) (pushAcc acc y) rest with
      | error e =>
        simp only [hrest] at h
        exact Except.noConfusion h
      | ok ys' =>
        simp only [hrest] at h
        injection h with h
        subst h
        cases j with
        | zero =>
          simp only [List.take_zero, List.foldl_nil, List.get_cons_zero,
            Nat.add_zero]
          exact hstep
        | succ j' =>
          have hj' : j' < ys'.length := by simpa using hj
          have hr' : j' < rest.length := by simpa using hr
          have hrec := ih (i+1) (pushAcc acc y) ys' hrest j' hj' hr'
          simp only [List.take_succ_cons, List.foldl_cons, List.get_cons_succ,
            Nat.add_succ, Nat.succ_add] at hrec ⊢
          exact hrec

/-!
## The accumulated state in terms of the emitted rows
-/

theorem foldl_pushAcc_wins (acc : TeamAcc) (l : List TeamRow) (y : TeamRow) :
    (List.foldl pushAcc acc (l ++ [y])).wins = y.wins := by
  rw [List.foldl_append]
  rfl

theorem foldl_pushAcc_losses (acc : TeamAcc) (l : List TeamRow) (y : TeamRow) :
    (List.foldl pushAcc acc (l ++ [y])).losses = y.losses := by
  rw [List.foldl_append]
  rfl

theorem foldl_pushAcc_ties (acc : TeamAcc) (l : List TeamRow) (y : TeamRow) :
    (List.foldl pushAcc acc (l ++ [y])).ties = y.ties := by
  rw [List.foldl_append]
  rfl

theorem foldl_pushAcc_wonPts (acc : TeamAcc) :
    ∀ l : List TeamRow,
      (List.foldl pushAcc acc l).wonPts =
        acc.wonPts ++ l.map (·.won_on_points) := by
  intro l
  induction l generalizing acc with
  | nil => simp
  | cons y l ih => simp [List.foldl_cons, ih, pushAcc]

theorem foldl_pushAcc_lostPts (acc : TeamAcc) :
    ∀ l : List TeamRow,
      (List.foldl pushAcc acc l).lostPts =
        acc.lostPts ++ l.map (·.lost_on_points) := by
  intro l
  induction l generalizing acc with
  | nil => simp
  | cons y l ih => simp [List.foldl_cons, ih, pushAcc]

theorem foldl_pushAcc_wonSpread (acc : TeamAcc) :
    ∀ l : List TeamRow,
      (List.foldl pushAcc acc l).wonSpread =
        acc.wonSpread ++ l.map (·.won_on_spread) := by
  intro l
  induction l generalizing acc with
  | nil => simp
  | cons y l ih => simp [List.foldl_cons, ih, pushAcc]

theorem foldl_pushAcc_lostSpread (acc : TeamAcc) :
    ∀ l : List TeamRow,
      (List.foldl pushAcc acc l).lostSpread =
        acc.lostSpread ++ l.map (·.lost_on_spread) := by
  intro l
  induction l generalizing acc with
  | nil => simp
  | cons y l ih => simp [List.foldl_cons, ih, pushAcc]

theorem foldl_pushAcc_overs (acc : TeamAcc) :
    ∀ l : List TeamRow,
      (List.foldl pushAcc acc l).overs = acc.overs ++ l.map (·.over) := by
  intro l
  induction l generalizing acc with
  | nil => simp
  | cons y l ih => simp [List.foldl_cons, ih, pushAcc]

theorem foldl_pushAcc_unders (acc : TeamAcc) :
    ∀ l : List TeamRow,
      (List.foldl pushAcc acc l).unders = acc.unders ++ l.map (·.under) := by
  intro l
  induction l generalizing acc with
  | nil => simp
  | cons y l ih => simp [List.foldl_cons, ih, pushAcc]

/-!
## Field equations for one computed row
-/

theorem rowCalc_point_margin_game (n i : Nat) (acc : TeamAcc) (row : GameRow)
    (b : Bool) :
    (rowCalc n i acc row b).point_margin_game =
      if b then get_point_margin row.home_score row.away_score
      else get_point_margin row.away_score row.home_score := rfl

theorem rowCalc_wins (n i : Nat) (acc : TeamAcc) (row : GameRow) (b : Bool) :
    (rowCalc n i acc row b).wins =
      if i = 0 then get_wins (rowCalc n i acc row b).point_margin_game
      else acc.wins + get_wins (rowCalc n i acc row b).point_margin_game := rfl

theorem rowCalc_losses (n i : Nat) (acc : TeamAcc) (row : GameRow) (b : Bool) :
    (rowCalc n i acc row b).losses =
      if i = 0 then get_losses (rowCalc n i acc row b).point_margin_game
      else acc.losses + get_losses (rowCalc n i acc row b).point_margin_game := rfl

theorem rowCalc_ties (n i : Nat) (acc : TeamAcc) (row : GameRow) (b : Bool) :
    (rowCalc n i acc row b).ties =
      if i = 0 then get_ties (rowCalc n i acc row b).point_margin_game
      else acc.ties + get_ties (rowCalc n i acc row b).point_margin_game := rfl

theorem rowCalc_won_on_points (n i : Nat) (acc : TeamAcc) (row : GameRow)
    (b : Bool) :
    (rowCalc n i acc row b).won_on_points =
      decide ((rowCalc n i acc row b).point_margin_game > 0) := rfl

theorem rowCalc_lost_on_points (n i : Nat) (acc : TeamAcc) (row : GameRow)
    (b : Bool) :
    (rowCalc n i acc row b).lost_on_points =
      decide ((rowCalc n i acc row b).point_margin_game < 0) := rfl

theorem rowCalc_cover_margin_game (n i : Nat) (acc : TeamAcc) (row : GameRow)
    (b : Bool) :
    (rowCalc n i acc row b).cover_margin_game =
      nanAdd (rowCalc n i acc row b).point_margin_game
        (if b then row.line else nanNeg row.line) := rfl

theorem rowCalc_won_on_spread (n i : Nat) (acc : TeamAcc) (row : GameRow)
    (b : Bool) :
    (rowCalc n i acc row b).won_on_spread =
      nanGtZero (rowCalc n i acc row b).cover_margin_game := rfl

theorem rowCalc_lost_on_spread (n i : Nat) (acc : TeamAcc) (row : GameRow)
    (b : Bool) :
    (rowCalc n i acc row b).lost_on_spread =
      nanLeZero (rowCalc n i acc row b).cover_margin_game := rfl

theorem rowCalc_total_points (n i : Nat) (acc : TeamAcc) (row : GameRow)
    (b : Bool) :
    (rowCalc n i acc row b).total_points =
      match row.home_score, row.away_score with
      | some h, some a => h + a
      | _, _ => 0 := rfl

theorem rowCalc_overunder_margin (n i : Nat) (acc : TeamAcc) (row : GameRow)
    (b : Bool) :
    (rowCalc n i acc row b).overunder_margin =
      match row.over_under with
      | some ou => (rowCalc n i acc row b).total_points - ou
      | none => 0 := rfl

theorem rowCalc_over (n i : Nat) (acc : TeamAcc) (row : GameRow) (b : Bool) :
    (rowCalc n i acc row b).over =
      decide ((rowCalc n i acc row b).overunder_margin > 0) := rfl

theorem rowCalc_under (n i : Nat) (acc : TeamAcc) (row : GameRow) (b : Bool) :
    (rowCalc n i acc row b).under =
      decide ((rowCalc n i acc row b).overunder_margin < 0) := rfl

theorem rowCalc_point_win_streak (n i : Nat) (acc : TeamAcc) (row : GameRow)
    (b : Bool) :
    (rowCalc n i acc row b).point_win_streak =
      get_streak
        (streakSeries n i acc.wonPts (rowCalc n i acc row b).won_on_points)
        i 0 := rfl

theorem rowCalc_point_loss_streak (n i : Nat) (acc : TeamAcc) (row : GameRow)
    (b : Bool) :
    (rowCalc n i acc row b).point_loss_streak =
      get_streak
        (streakSeries n i acc.lostPts (rowCalc n i acc row b).lost_on_points)
        i 0 := rfl

theorem rowCalc_cover_win_streak (n i : Nat) (acc : TeamAcc) (row : GameRow)
    (b : Bool) :
    (rowCalc n i acc row b).cover_win_streak =
      get_streak
        (streakSeries n i acc.wonSpread (rowCalc n i acc row b).won_on_spread)
        i 0 := rfl

theorem rowCalc_cover_loss_streak (n i : Nat) (acc : TeamAcc) (row : GameRow)
    (b : Bool) :
    (rowCalc n i acc row b).cover_loss_streak =
      get_streak
        (streakSeries n i acc.lostSpread (rowCalc n i acc row b).lost_on_spread)
        i 0 := rfl

theorem rowCalc_over_streak (n i : Nat) (acc : TeamAcc) (row : GameRow)
    (b : Bool) :
    (rowCalc n i acc row b).over_streak =
      get_streak (streakSeries n i acc.overs (rowCalc n i acc row b).over)
        i 0 := rfl

theorem rowCalc_under_streak (n i : Nat) (acc : TeamAcc) (row : GameRow)
    (b : Bool) :
    (rowCalc n i acc row b).under_streak =
      get_streak (streakSeries n i acc.unders (rowCalc n i acc row b).under)
        i 0 := rfl

/-!
## Trailing-run lemmas
-/

theorem trailingRun_false (F : List Bool) (j : Nat)
    (hf : F.getD j false = false) : trailingRun F j = 0 := by
  cases j with
  | zero =>
    unfold trailingRun
    rw [hf]
    simp
  | succ j' =>
    unfold trailingRun
    rw [hf]
    simp

theorem trailingRun_zero_true (F : List Bool) (hf : F.getD 0 false = true) :
    trailingRun F 0 = 1 := if_pos hf

theorem trailingRun_succ_true (F : List Bool) (j : Nat)
    (hf : F.getD (j+1) false = true) :
    trailingRun F (j+1) = 1 + trailingRun F j := if_pos hf

theorem trailingRun_le (F : List Bool) : ∀ j, trailingRun F j ≤ j + 1 := by
  intro j
  induction j with
  | zero =>
    unfold trailingRun
    split <;> omega
  | succ j ih =>
    unfold trailingRun
    split <;> omega

theorem trailingRun_congr (F G : List Bool) :
    ∀ j, (∀ k, k ≤ j → F.getD k false = G.getD k false) →
      trailingRun F j = trailingRun G j := by
  intro j
  induction j with
  | zero =>
    intro hagree
    unfold trailingRun
    rw [hagree 0 (Nat.le_refl 0)]
  | succ j ih =>
    intro hagree
    unfold trailingRun
    rw [hagree (j+1) (Nat.le_refl _), ih (fun k hk => hagree k (by omega))]

/-- Evaluating `get_streak` with window `0` on the column as it stands when
row `j` is being filled (computed prefix, current flag, `False` defaults):
the result is the trailing run in the final column, capped at `n - 1`. -/
theorem get_streak_series_eq (F : List Bool) (n j : Nat)
    (hlen : F.length = n) (hj : j < n) :
    get_streak (F.take j ++ [F.getD j false] ++
        List.replicate (n - (j+1)) false) j 0 =
      min (trailingRun F j) (n - 1) := by
  set series := F.take j ++ [F.getD j false] ++ List.replicate (n - (j+1)) false
    with hser
  have htake : (F.take j).length = j := by
    simp
    omega
  have hslen : series.length = n := by
    rw [hser]
    simp
    omega
  have hagree : ∀ k, k ≤ j → series.getD k false = F.getD k false := by
    intro k hk
    have h1 : series.getD k false =
        (F.take j ++ [F.getD j false]).getD k false :=
      List.getD_append _ _ _ _ (by simp [htake]; omega)
    rw [h1]
    rcases Nat.lt_or_ge k j with hk' | hk'
    · rw [List.getD_append _ _ _ _ (by rw [htake]; exact hk')]
      rw [List.getD_eq_getElem _ _ (by rw [htake]; exact hk'),
          List.getD_eq_getElem _ _ (by omega : k < F.length)]
      exact List.getElem_take F ..
    · have hkj : k = j := by omega
      subst hkj
      rw [List.getD_append_right _ _ _ _ (by rw [htake])]
      simp [htake]
  have hrun : trailingRun series j = trailingRun F j :=
    trailingRun_congr series F j hagree
  rw [get_streak_eq_min, hrun, if_pos (le_refl (0 : Int)), hslen]
  congr 1
  omega

theorem initAcc_wonPts : initAcc.wonPts = [] := rfl

theorem initAcc_lostPts : initAcc.lostPts = [] := rfl

theorem initAcc_wonSpread : initAcc.wonSpread = [] := rfl

theorem initAcc_lostSpread : initAcc.lostSpread = [] := rfl

theorem initAcc_overs : initAcc.overs = [] := rfl

theorem initAcc_unders : initAcc.unders = [] := rfl

/-!
## Per-row characterization of the six streak columns
-/

theorem generate_team_frame_streak_char (team : String) (rows : List GameRow)
    (ys : List TeamRow) (h : generate_team_frame team rows = .ok ys)
    (j : Nat) (hj : j < ys.length) :
    (ys.get ⟨j, hj⟩).point_win_streak =
        min (trailingRun (ys.map (·.won_on_points)) j) (ys.length - 1) ∧
    (ys.get ⟨j, hj⟩).point_loss_streak =
        min (trailingRun (ys.map (·.lost_on_points)) j) (ys.length - 1) ∧
    (ys.get ⟨j, hj⟩).cover_win_streak =
        min (trailingRun (ys.map (·.won_on_spread)) j) (ys.length - 1) ∧
    (ys.get ⟨j, hj⟩).cover_loss_streak =
        min (trailingRun (ys.map (·.lost_on_spread)) j) (ys.length - 1) ∧
    (ys.get ⟨j, hj⟩).over_streak =
        min (trailingRun (ys.map (·.over)) j) (ys.length - 1) ∧
    (ys.get ⟨j, hj⟩).under_streak =
        min (trailingRun (ys.map (·.under)) j) (ys.length - 1) := by
  have hlen : ys.length = rows.length :=
    teamLoop_length team rows.length rows 0 initAcc ys h
  have hr : j < rows.length := by omega
  have hstep := teamLoop_get team rows.length rows 0 initAcc ys h j hj hr
  rw [Nat.zero_add] at hstep
  obtain ⟨b, hside, hy⟩ := teamStep_ok_row hstep
  have hcap : ys.length - 1 = rows.length - 1 := by omega
  refine ⟨?_, ?_, ?_, ?_, ?_, ?_⟩
  · have hstate : (List.foldl pushAcc initAcc (ys.take j)).wonPts =
        (ys.take j).map (fun x => x.won_on_points) := by
      rw [foldl_pushAcc_wonPts, initAcc_wonPts, List.nil_append]
    have hflag : (ys.get ⟨j, hj⟩).won_on_points =
        (ys.map (·.won_on_points)).getD j false := by
      rw [List.getD_eq_getElem _ _ (by simpa using hj)]
      simp
    rw [hcap, hy, rowCalc_point_win_streak, ← hy]
    simp only [streakSeries]
    rw [hstate, List.map_take, hflag]
    exact get_streak_series_eq _ rows.length j (by simpa using hlen) hr
  · have hstate : (List.foldl pushAcc initAcc (ys.take j)).lostPts =
        (ys.take j).map (fun x => x.lost_on_points) := by
      rw [foldl_pushAcc_lostPts, initAcc_lostPts, List.nil_append]
    have hflag : (ys.get ⟨j, hj⟩).lost_on_points =
        (ys.map (·.lost_on_points)).getD j false := by
      rw [List.getD_eq_getElem _ _ (by simpa using hj)]
      simp
    rw [hcap, hy, rowCalc_point_loss_streak, ← hy]
    simp only [streakSeries]
    rw [hstate, List.map_take, hflag]
    exact get_streak_series_eq _ rows.length j (by simpa using hlen) hr
  · have hstate : (List.foldl pushAcc initAcc (ys.take j)).wonSpread =
        (ys.take j).map (fun x => x.won_on_spread) := by
      rw [foldl_pushAcc_wonSpread, initAcc_wonSpread, List.nil_append]
    have hflag : (ys.get ⟨j, hj⟩).won_on_spread =
        (ys.map (·.won_on_spread)).getD j false := by
      rw [List.getD_eq_getElem _ _ (by simpa using hj)]
      simp
    rw [hcap, hy, rowCalc_cover_win_streak, ← hy]
    simp only [streakSeries]
    rw [hstate, List.map_take, hflag]
    exact get_streak_series_eq _ rows.length j (by simpa using hlen) hr
  · have hstate : (List.foldl pushAcc initAcc (ys.take j)).lostSpread =
        (ys.take j).map (fun x => x.lost_on_spread) := by
      rw [foldl_pushAcc_lostSpread, initAcc_lostSpread, List.nil_append]
    have hflag : (ys.get ⟨j, hj⟩).lost_on_spread =
        (ys.map (·.lost_on_spread)).getD j false := by
      rw [List.getD_eq_getElem _ _ (by simpa using hj)]
      simp
    rw [hcap, hy, rowCalc_cover_loss_streak, ← hy]
    simp only [streakSeries]
    rw [hstate, List.map_take, hflag]
    exact get_streak_series_eq _ rows.length j (by simpa using hlen) hr
  · have hstate : (List.foldl pushAcc initAcc (ys.take j)).overs =
        (ys.take j).map (fun x => x.over) := by
      rw [foldl_pushAcc_overs, initAcc_overs, List.nil_append]
    have hflag : (ys.get ⟨j, hj⟩).over =
        (ys.map (·.over)).getD j false := by
      rw [List.getD_eq_getElem _ _ (by simpa using hj)]
      simp
    rw [hcap, hy, rowCalc_over_streak, ← hy]
    simp only [streakSeries]
    rw [hstate, List.map_take, hflag]
    exact get_streak_series_eq _ rows.length j (by simpa using hlen) hr
  · have hstate : (List.foldl pushAcc initAcc (ys.take j)).unders =
        (ys.take j).map (fun x => x.under) := by
      rw [foldl_pushAcc_unders, initAcc_unders, List.nil_append]
    have hflag : (ys.get ⟨j, hj⟩).under =
        (ys.map (·.under)).getD j false := by
      rw [List.getD_eq_getElem _ _ (by simpa using hj)]
      simp
    rw [hcap, hy, rowCalc_under_streak, ← hy]
    simp only [streakSeries]
    rw [hstate, List.map_take, hflag]
    exact get_streak_series_eq _ rows.length j (by simpa using hlen) hr

/-!
## The per-column streak property (claim C4, amended)
-/

/-- Streak/flag relationship for one outcome column of a team frame of
`F.length` rows, as the code computes it: a false flag zeroes the streak; a
true flag makes the streak the predecessor streak plus one (or `1` after a
false flag or at row 0) — except at the last row when the run of true flags
covers the whole partition, where `get_streak`'s cap yields `F.length - 1`
instead of `F.length`. -/
def StreakColumnSpec (F : List Bool) (S : List Nat) : Prop :=
  ∀ j, j < F.length →
    (F.getD j false = false → S.getD j 0 = 0) ∧
    (F.getD j false = true →
      ¬(j + 1 = F.length ∧ trailingRun F j = F.length) →
      S.getD j 0 =
        if 0 < j ∧ F.getD (j - 1) false = true then S.getD (j - 1) 0 + 1
        else 1) ∧
    (F.getD j false = true → j + 1 = F.length →
      trailingRun F j = F.length → S.getD j 0 = F.length - 1)

theorem streakSpec_of_char (F : List Bool) (S : List Nat)
    (hchar : ∀ j, j < F.length →
      S.getD j 0 = min (trailingRun F j) (F.length - 1)) :
    StreakColumnSpec F S := by
  intro j hj
  refine ⟨?_, ?_, ?_⟩
  · intro hf
    rw [hchar j hj, trailingRun_false F j hf]
    simp
  · intro hf hnot
    cases j with
    | zero =>
      have h1 : trailingRun F 0 = 1 := trailingRun_zero_true F hf
      rcases Nat.lt_or_ge 1 F.length with hl | hl
      · rw [hchar 0 hj, h1, if_neg (by simp)]
        omega
      · exact absurd ⟨by omega, by omega⟩ hnot
    | succ j' =>
      simp only [Nat.add_sub_cancel]
      have hstep : trailingRun F (j'+1) = 1 + trailingRun F j' :=
        trailingRun_succ_true F j' hf
      have hle' : trailingRun F j' ≤ j' + 1 := trailingRun_le F j'
      have hj' : j' < F.length := by omega
      have hub : trailingRun F (j'+1) ≤ F.length - 1 := by
        rcases Nat.lt_or_ge (j' + 2) F.length with hl | hl
        · omega
        · have hne : trailingRun F (j'+1) ≠ F.length :=
            fun hr => hnot ⟨by omega, hr⟩
          omega
      by_cases hf' : F.getD j' false = true
      · rw [hchar (j'+1) hj, hchar j' hj', if_pos ⟨Nat.succ_pos j', hf'⟩]
        omega
      · have h0 : trailingRun F j' = 0 :=
          trailingRun_false F j' (by simpa using hf')
        rw [hchar (j'+1) hj, if_neg (fun hc => hf' hc.2)]
        omega
  · intro hf hlast hall
    rw [hchar j hj, hall]
    omega

/-!
## Claim C1: the streak calculator contract
-/

/-- **C1** (counterexample): on the one-element series `[true]` at
position `0` with the unbounded window `0`, the maximal trailing run of
true values ending at the position is `1`, but `get_streak` returns `0` —
the backward scan admits at most `window - 1` games (`len(series) - 1` in
the unbounded case), not `window`. -/
theorem C1_counterexample :
    get_streak [true] 0 0 = 0 ∧ trailingRun [true] 0 = 1 ∧
      get_streak [true] 0 0 ≠ trailingRun [true] 0 := by
  decide

/-- **C1** (amended): `get_streak(series, position, window)` returns the
length of the maximal trailing run of true values ending at the position,
capped at `window - 1` games, where a window of 0 or less stands for
`len(series)` (so the unbounded scan is itself capped at
`len(series) - 1`).  It returns 0 whenever the value at the position is
false, and for the degenerate `window = 1` it always returns 0 (hence is
in {0, 1}). -/
theorem C1_streak_spec (series : List Bool) (pos : Nat) (window : Int) :
    get_streak series pos window =
      min (trailingRun series pos)
        ((if window ≤ 0 then (series.length : Int) else window) - 1).toNat ∧
    (series.getD pos false = false → get_streak series pos window = 0) ∧
    (window = 1 → get_streak series pos window = 0) := by
  refine ⟨get_streak_eq_min series pos window, ?_, ?_⟩
  · intro hf
    rw [get_streak_eq_min, trailingRun_false series pos hf]
    simp
  · intro hw
    subst hw
    rw [get_streak_eq_min, if_neg (by norm_num)]
    simp

/-- Witness for C1: applying the amended theorem at `series = [false]`,
`position = 0`, `window = 1`, discharging both hypotheses. -/
theorem C1_streak_spec_witness : get_streak [false] 0 1 = 0 :=
  (C1_streak_spec [false] 0 1).2.1 rfl

/-!
## Claim C3: cumulative win/loss/tie counters
-/

/-- **C3**: in every successfully generated team frame, for every row
`j+1`, the cumulative counters satisfy
`wins[j+1] = wins[j] + 1{point_margin[j+1] > 0}` (and the analogues for
losses and ties); the base case at row 0 is the bare indicator; and the
three indicators are mutually exclusive, exactly one of them being 1 for
every point margin. -/
theorem C3_cumulative_counters (team : String) (rows : List GameRow)
    (ys : List TeamRow) (h : generate_team_frame team rows = .ok ys) :
    (∀ (j : Nat) (hj1 : j + 1 < ys.length),
      (ys.get ⟨j + 1, hj1⟩).wins =
          (ys.get ⟨j, by omega⟩).wins +
            get_wins (ys.get ⟨j + 1, hj1⟩).point_margin_game ∧
      (ys.get ⟨j + 1, hj1⟩).losses =
          (ys.get ⟨j, by omega⟩).losses +
            get_losses (ys.get ⟨j + 1, hj1⟩).point_margin_game ∧
      (ys.get ⟨j + 1, hj1⟩).ties =
          (ys.get ⟨j, by omega⟩).ties +
            get_ties (ys.get ⟨j + 1, hj1⟩).point_margin_game) ∧
    (∀ h0 : 0 < ys.length,
      (ys.get ⟨0, h0⟩).wins = get_wins (ys.get ⟨0, h0⟩).point_margin_game ∧
      (ys.get ⟨0, h0⟩).losses =
        get_losses (ys.get ⟨0, h0⟩).point_margin_game ∧
      (ys.get ⟨0, h0⟩).ties = get_ties (ys.get ⟨0, h0⟩).point_margin_game) ∧
    (∀ pm : ℚ,
      get_wins pm + get_losses pm + get_ties pm = 1 ∧
      (get_wins pm = 0 ∨ get_wins pm = 1) ∧
      (get_losses pm = 0 ∨ get_losses pm = 1) ∧
      (get_ties pm = 0 ∨ get_ties pm = 1)) := by
  have hlen : ys.length = rows.length :=
    teamLoop_length team rows.length rows 0 initAcc ys h
  refine ⟨?_, ?_, ?_⟩
  · intro j hj1
    have hx : j < ys.length := by omega
    have hr1 : j + 1 < rows.length := by omega
    have hstep := teamLoop_get team rows.length rows 0 initAcc ys h (j+1) hj1 hr1
    rw [Nat.zero_add] at hstep
    obtain ⟨b, hside, hy⟩ := teamStep_ok_row hstep
    have htake : ys.take (j+1) = ys.take j ++ [ys.get ⟨j, hx⟩] := by
      rw [List.get_eq_getElem, ← List.concat_eq_append, List.take_concat_get]
    have hwins : (List.foldl pushAcc initAcc (ys.take (j+1))).wins =
        (ys.get ⟨j, hx⟩).wins := by
      rw [htake, foldl_pushAcc_wins]
    have hlosses : (List.foldl pushAcc initAcc (ys.take (j+1))).losses =
        (ys.get ⟨j, hx⟩).losses := by
      rw [htake, foldl_pushAcc_losses]
    have hties : (List.foldl pushAcc initAcc (ys.take (j+1))).ties =
        (ys.get ⟨j, hx⟩).ties := by
      rw [htake, foldl_pushAcc_ties]
    refine ⟨?_, ?_, ?_⟩
    · rw [hy, rowCalc_wins, if_neg (Nat.succ_ne_zero j), hwins]
    · rw [hy, rowCalc_losses, if_neg (Nat.succ_ne_zero j), hlosses]
    · rw [hy, rowCalc_ties, if_neg (Nat.succ_ne_zero j), hties]
  · intro h0
    have hr0 : 0 < rows.length := by omega
    have hstep := teamLoop_get team rows.length rows 0 initAcc ys h 0 h0 hr0
    rw [Nat.zero_add] at hstep
    obtain ⟨b, hside, hy⟩ := teamStep_ok_row hstep
    refine ⟨?_, ?_, ?_⟩
    · rw [hy, rowCalc_wins, if_pos rfl]
    · rw [hy, rowCalc_losses, if_pos rfl]
    · rw [hy, rowCalc_ties, if_pos rfl]
  · intro pm
    unfold get_wins get_losses get_ties
    rcases lt_trichotomy pm 0 with hpm | hpm | hpm
    · rw [if_neg (lt_asymm hpm), if_pos hpm, if_neg hpm.ne]
      norm_num
    · subst hpm
      rw [if_neg (lt_irrefl 0), if_pos rfl]
      norm_num
    · rw [if_pos hpm, if_neg (lt_asymm hpm), if_neg hpm.ne']
      norm_num

/-!
## Claim C4: streak monotonicity
-/

/-- **C4** (amended): each of the six streak columns computed with
window `0` satisfies `StreakColumnSpec` against its outcome-flag column: a
false flag gives streak 0, a true flag gives the previous streak plus one
(or 1 after a false flag or at row 0) — except that at the last row of a
partition whose flags are all true, the streak is capped at
`length - 1` by `get_streak`'s window arithmetic. -/
theorem C4_streak_monotonicity (team : String) (rows : List GameRow)
    (ys : List TeamRow) (h : generate_team_frame team rows = .ok ys) :
    StreakColumnSpec (ys.map (·.won_on_points))
      (ys.map (·.point_win_streak)) ∧
    StreakColumnSpec (ys.map (·.lost_on_points))
      (ys.map (·.point_loss_streak)) ∧
    StreakColumnSpec (ys.map (·.won_on_spread))
      (ys.map (·.cover_win_streak)) ∧
    StreakColumnSpec (ys.map (·.lost_on_spread))
      (ys.map (·.cover_loss_streak)) ∧
    StreakColumnSpec (ys.map (·.over)) (ys.map (·.over_streak)) ∧
    StreakColumnSpec (ys.map (·.under)) (ys.map (·.under_streak)) := by
  have hchar := fun (j : Nat) (hj : j < ys.length) =>
    generate_team_frame_streak_char team rows ys h j hj
  refine ⟨?_, ?_, ?_, ?_, ?_, ?_⟩
  · apply streakSpec_of_char
    intro j hj
    have hj' : j < ys.length := by simpa using hj
    rw [List.getD_eq_getElem _ _ (by simpa using hj')]
    simpa using (hchar j hj').1
  · apply streakSpec_of_char
    intro j hj
    have hj' : j < ys.length := by simpa using hj
    rw [List.getD_eq_getElem _ _ (by simpa using hj')]
    simpa using (hchar j hj').2.1
  · apply streakSpec_of_char
    intro j hj
    have hj' : j < ys.length := by simpa using hj
    rw [List.getD_eq_getElem _ _ (by simpa using hj')]
    simpa using (hchar j hj').2.2.1
  · apply streakSpec_of_char
    intro j hj
    have hj' : j < ys.length := by simpa using hj
    rw [List.getD_eq_getElem _ _ (by simpa using hj')]
    simpa using (hchar j hj').2.2.2.1
  · apply streakSpec_of_char
    intro j hj
    have hj' : j < ys.length := by simpa using hj
    rw [List.getD_eq_getElem _ _ (by simpa using hj')]
    simpa using (hchar j hj').2.2.2.2.1
  · apply streakSpec_of_char
    intro j hj
    have hj' : j < ys.length := by simpa using hj
    rw [List.getD_eq_getElem _ _ (by simpa using hj')]
    simpa using (hchar j hj').2.2.2.2.2

/-!
## Claims C5 and C7: cover margins, spread outcomes, missing values
-/

theorem get_point_margin_none (s o : Option ℚ) (h : s = none ∨ o = none) :
    get_point_margin s o = 0 := by
  rcases h with h | h
  · subst h
    cases o <;> rfl
  · subst h
    cases s <;> rfl

theorem rowCalc_total_points_none (n i : Nat) (acc : TeamAcc)
    (row : GameRow) (b : Bool)
    (h : row.home_score = none ∨ row.away_score = none) :
    (rowCalc n i acc row b).total_points = 0 := by
  obtain ⟨ht, aw, hs, as_, ln, ou⟩ := row
  simp only at h
  rcases h with h | h
  · subst h
    rfl
  · subst h
    cases hs <;> rfl

theorem sideOf_eq_some (team : String) (row : GameRow) (b : Bool)
    (h : sideOf team row = some b) :
    (b = true ↔ team = row.home_team) ∧
    (b = false → team = row.away_team) := by
  unfold sideOf at h
  by_cases hh : team = row.home_team
  · rw [if_pos hh] at h
    injection h with h
    subst h
    exact ⟨⟨fun _ => hh, fun _ => rfl⟩, by simp⟩
  · rw [if_neg hh] at h
    by_cases ha : team = row.away_team
    · rw [if_pos ha] at h
      injection h with h
      subst h
      exact ⟨⟨fun hc => (Bool.false_ne_true hc).elim, fun hc => (hh hc).elim⟩,
             fun _ => ha⟩
    · rw [if_neg ha] at h
      exact Option.noConfusion h

/-- The row loop never raises when every row of the partition names the
team as its home or away side: the `KeyError` of lines 1041-1042 is the
only raise in the loop. -/
theorem teamLoop_ok_of_sides (team : String) (n : Nat) :
    ∀ (rows : List GameRow) (i : Nat) (acc : TeamAcc),
      (∀ r ∈ rows, team = r.home_team ∨ team = r.away_team) →
      ∃ ys, teamLoop team n i acc rows = .ok ys := by
  intro rows
  induction rows with
  | nil =>
    intro i acc _
    exact ⟨[], rfl⟩
  | cons row rest ih =>
    intro i acc hall
    have hrow := hall row (by simp)
    have hbside : ∃ b, sideOf team row = some b := by
      unfold sideOf
      by_cases hh : team = row.home_team
      · exact ⟨true, if_pos hh⟩
      · rcases hrow with hrow | hrow
        · exact absurd hrow hh
        · exact ⟨false, by rw [if_neg hh, if_pos hrow]⟩
    obtain ⟨b, hbs⟩ := hbside
    obtain ⟨ys', hys'⟩ := ih (i+1) (pushAcc acc (rowCalc n i acc row b))
      (fun r hr => hall r (by simp [hr]))
    refine ⟨rowCalc n i acc row b :: ys', ?_⟩
    simp only [teamLoop, teamStep, hbs]
    rw [hys']

/-- **C5**: for every row of a successfully generated team frame, the
cover margin is the point margin plus the line when the team is at home
and the point margin plus the negated line when it is away (the stored
line is from the home perspective, NaN propagating); `won_on_spread` holds
exactly when the cover margin compares greater than zero, `lost_on_spread`
exactly when it compares less-or-equal to zero, and in particular a push
(cover margin exactly 0) is scored as a loss and not a win. -/
theorem C5_cover_margin (team : String) (rows : List GameRow)
    (ys : List TeamRow) (h : generate_team_frame team rows = .ok ys)
    (j : Nat) (hj : j < ys.length) (hr : j < rows.length) :
    (team = (rows.get ⟨j, hr⟩).home_team →
      (ys.get ⟨j, hj⟩).cover_margin_game =
        nanAdd (ys.get ⟨j, hj⟩).point_margin_game
          (rows.get ⟨j, hr⟩).line) ∧
    (team ≠ (rows.get ⟨j, hr⟩).home_team →
      team = (rows.get ⟨j, hr⟩).away_team →
      (ys.get ⟨j, hj⟩).cover_margin_game =
        nanAdd (ys.get ⟨j, hj⟩).point_margin_game
          (nanNeg (rows.get ⟨j, hr⟩).line)) ∧
    (ys.get ⟨j, hj⟩).won_on_spread =
      nanGtZero (ys.get ⟨j, hj⟩).cover_margin_game ∧
    (ys.get ⟨j, hj⟩).lost_on_spread =
      nanLeZero (ys.get ⟨j, hj⟩).cover_margin_game ∧
    ((ys.get ⟨j, hj⟩).cover_margin_game = some 0 →
      (ys.get ⟨j, hj⟩).lost_on_spread = true ∧
      (ys.get ⟨j, hj⟩).won_on_spread = false) := by
  have hstep := teamLoop_get team rows.length rows 0 initAcc ys h j hj hr
  rw [Nat.zero_add] at hstep
  obtain ⟨b, hside, hy⟩ := teamStep_ok_row hstep
  refine ⟨?_, ?_, ?_, ?_, ?_⟩
  · intro hhome
    have hb : b = true := (sideOf_eq_some team _ b hside).1.mpr hhome
    subst hb
    rw [hy, rowCalc_cover_margin_game, if_pos rfl]
  · intro hnothome haway
    have hb : b = false := by
      cases b
      · rfl
      · exact absurd ((sideOf_eq_some team _ true hside).1.mp rfl) hnothome
    subst hb
    rw [hy, rowCalc_cover_margin_game, if_neg (by simp)]
  · rw [hy, rowCalc_won_on_spread]
  · rw [hy, rowCalc_lost_on_spread]
  · intro hc
    constructor
    · rw [hy, rowCalc_lost_on_spread, ← hy, hc]
      decide
    · rw [hy, rowCalc_won_on_spread, ← hy, hc]
      decide

/-- **C7** (amended): margin computations guarded by `isnan` leave the
zero default when their own inputs are missing — `point_margin_game` and
`total_points` stay 0 when a score is NaN, `overunder_margin` stays 0 when
the over/under line is NaN — and no error is raised by missing values (the
loop only raises for an unmatched team).  But `cover_margin_game` is
always assigned `point_margin + signed line` (NaN propagating), and
`overunder_margin` is assigned `total_points - over_under` whenever the
over/under value is present even if both scores are missing; those two
fields do not keep a zero default merely because a score is missing. -/
theorem C7_missing_values (team : String) (rows : List GameRow)
    (ys : List TeamRow) (h : generate_team_frame team rows = .ok ys)
    (j : Nat) (hj : j < ys.length) (hr : j < rows.length) :
    ((rows.get ⟨j, hr⟩).home_score = none ∨
        (rows.get ⟨j, hr⟩).away_score = none →
      (ys.get ⟨j, hj⟩).point_margin_game = 0 ∧
      (ys.get ⟨j, hj⟩).total_points = 0) ∧
    ((rows.get ⟨j, hr⟩).over_under = none →
      (ys.get ⟨j, hj⟩).overunder_margin = 0) ∧
    (∀ ou : ℚ, (rows.get ⟨j, hr⟩).over_under = some ou →
      (ys.get ⟨j, hj⟩).overunder_margin =
        (ys.get ⟨j, hj⟩).total_points - ou) ∧
    ((ys.get ⟨j, hj⟩).cover_margin_game =
      nanAdd (ys.get ⟨j, hj⟩).point_margin_game
        (if team = (rows.get ⟨j, hr⟩).home_team then (rows.get ⟨j, hr⟩).line
         else nanNeg (rows.get ⟨j, hr⟩).line)) ∧
    ((∀ r ∈ rows, team = r.home_team ∨ team = r.away_team) →
      ∃ ys', generate_team_frame team rows = .ok ys') := by
  have hstep := teamLoop_get team rows.length rows 0 initAcc ys h j hj hr
  rw [Nat.zero_add] at hstep
  obtain ⟨b, hside, hy⟩ := teamStep_ok_row hstep
  refine ⟨?_, ?_, ?_, ?_, ?_⟩
  · intro hmiss
    constructor
    · rw [hy, rowCalc_point_margin_game]
      cases b
      · rw [if_neg (by simp)]
        exact get_point_margin_none _ _ hmiss.symm
      · rw [if_pos rfl]
        exact get_point_margin_none _ _ hmiss
    · rw [hy, rowCalc_total_points_none _ _ _ _ _ hmiss]
  · intro hou
    rw [hy, rowCalc_overunder_margin, hou]
  · intro ou hou
    rw [hy, rowCalc_overunder_margin, hou]
  · obtain ⟨hbt, hbf⟩ := sideOf_eq_some team _ b hside
    rw [hy, rowCalc_cover_margin_game]
    by_cases hh : team = (rows.get ⟨j, hr⟩).home_team
    · rw [if_pos hh, if_pos (hbt.mpr hh)]
    · rw [if_neg hh]
      have hb : b = false := by
        cases b
        · rfl
        · exact absurd (hbt.mp rfl) hh
      subst hb
      rw [if_neg (by simp)]
  · intro hall
    exact teamLoop_ok_of_sides team rows.length rows 0 initAcc hall

/-!
## The season game frame (per-row logic of `main`, lines 1543-1555)
-/

/-- One row of the season game frame after `main`'s per-row loop.  Here
`total_points` is the vectorized sum `gf['home.score'] + gf['away.score']`
of line 1543 (computed with no `isnan` guard, hence NaN propagating), and
`overunder_margin` (line 1553) likewise has no guard. -/
structure GameCalcRow where
  point_margin_game : ℚ
  won_on_points : Bool
  lost_on_points : Bool
  cover_margin_game : Option ℚ
  won_on_spread : Bool
  lost_on_spread : Bool
  total_points : Option ℚ
  overunder_margin : Option ℚ
  over : Bool
  under : Bool
deriving Repr, DecidableEq

/-- NaN-propagating addition of two possibly-NaN values. -/
def nanAddOpt : Option ℚ → Option ℚ → Option ℚ
  | some a, some b => some (a + b)
  | _, _ => none

/-- NaN-propagating subtraction of two possibly-NaN values. -/
def nanSubOpt : Option ℚ → Option ℚ → Option ℚ
  | some a, some b => some (a - b)
  | _, _ => none

/-- The per-row computation of `main`'s game-frame loop
(lines 1546-1555), together with the `total_points` column of line 1543:
each row of the season game frame is computed independently of the
others. -/
def gameRowCalc (row : GameRow) : GameCalcRow :=
  let total_points := nanAddOpt row.home_score row.away_score
  let pm := get_point_margin row.home_score row.away_score
  let won_on_points := decide (pm > 0)
  let lost_on_points := decide (pm < 0)
  let cover := nanAdd pm row.line
  let won_on_spread := nanGtZero cover
  let lost_on_spread := nanLeZero cover
  let oum := nanSubOpt total_points row.over_under
  let over := nanGtZero oum
  let under := nanLtZero oum
  ⟨pm, won_on_points, lost_on_points, cover, won_on_spread,
   lost_on_spread, total_points, oum, over, under⟩

/-- The loop of lines 1546-1555 over the whole season game frame. -/
def gameFrameCalc (rows : List GameRow) : List GameCalcRow :=
  rows.map gameRowCalc

theorem gameRowCalc_point_margin_game (row : GameRow) :
    (gameRowCalc row).point_margin_game =
      get_point_margin row.home_score row.away_score := rfl

theorem gameRowCalc_won_on_points (row : GameRow) :
    (gameRowCalc row).won_on_points =
      decide ((gameRowCalc row).point_margin_game > 0) := rfl

theorem gameRowCalc_lost_on_points (row : GameRow) :
    (gameRowCalc row).lost_on_points =
      decide ((gameRowCalc row).point_margin_game < 0) := rfl

theorem gameRowCalc_cover_margin_game (row : GameRow) :
    (gameRowCalc row).cover_margin_game =
      nanAdd (gameRowCalc row).point_margin_game row.line := rfl

theorem gameRowCalc_won_on_spread (row : GameRow) :
    (gameRowCalc row).won_on_spread =
      nanGtZero (gameRowCalc row).cover_margin_game := rfl

theorem gameRowCalc_lost_on_spread (row : GameRow) :
    (gameRowCalc row).lost_on_spread =
      nanLeZero (gameRowCalc row).cover_margin_game := rfl

/-!
## Claim C10: spread flags are complements (amended)
-/

theorem spread_complement (c : Option ℚ) (hc : c ≠ none) :
    nanGtZero c = !(nanLeZero c) := by
  cases c with
  | none => exact absurd rfl hc
  | some x =>
    show decide (x > 0) = !decide (x ≤ 0)
    rw [← decide_not]
    exact decide_eq_decide.mpr not_le.symm

theorem points_flags_iff (pm : ℚ) :
    (decide (pm > 0) = false ∧ decide (pm < 0) = false) ↔ pm = 0 := by
  simp only [decide_eq_false_iff_not, not_lt]
  constructor
  · rintro ⟨h1, h2⟩
    exact le_antisymm h1 h2
  · intro h
    rw [h]
    exact ⟨le_refl 0, le_refl 0⟩

/-- **C10** (amended): in every row produced by the per-row game logic —
both the season game frame and the team frame — `won_on_spread` and
`lost_on_spread` are exact complements *whenever the line is present*
(because `lost` is `cover_margin <= 0`); when the line is NaN the cover
margin is NaN, every comparison is false, and both flags are false.
`won_on_points`/`lost_on_points` are instead both false exactly when the
point margin is zero. -/
theorem C10_spread_flags :
    (∀ row : GameRow, row.line ≠ none →
      (gameRowCalc row).won_on_spread =
        !(gameRowCalc row).lost_on_spread) ∧
    (∀ row : GameRow, row.line = none →
      (gameRowCalc row).won_on_spread = false ∧
      (gameRowCalc row).lost_on_spread = false) ∧
    (∀ row : GameRow,
      ((gameRowCalc row).won_on_points = false ∧
        (gameRowCalc row).lost_on_points = false) ↔
      (gameRowCalc row).point_margin_game = 0) ∧
    (∀ (team : String) (rows : List GameRow) (ys : List TeamRow),
      generate_team_frame team rows = .ok ys →
      ∀ (j : Nat) (hj : j < ys.length) (hr : j < rows.length),
        ((rows.get ⟨j, hr⟩).line ≠ none →
          (ys.get ⟨j, hj⟩).won_on_spread =
            !(ys.get ⟨j, hj⟩).lost_on_spread) ∧
        (((ys.get ⟨j, hj⟩).won_on_points = false ∧
          (ys.get ⟨j, hj⟩).lost_on_points = false) ↔
          (ys.get ⟨j, hj⟩).point_margin_game = 0)) := by
  refine ⟨?_, ?_, ?_, ?_⟩
  · intro row hline
    obtain ⟨l, hl⟩ := Option.ne_none_iff_exists'.mp hline
    rw [gameRowCalc_won_on_spread, gameRowCalc_lost_on_spread]
    apply spread_complement
    rw [gameRowCalc_cover_margin_game, hl]
    simp [nanAdd]
  · intro row hline
    constructor
    · rw [gameRowCalc_won_on_spread, gameRowCalc_cover_margin_game, hline]
      rfl
    · rw [gameRowCalc_lost_on_spread, gameRowCalc_cover_margin_game, hline]
      rfl
  · intro row
    rw [gameRowCalc_won_on_points, gameRowCalc_lost_on_points]
    exact points_flags_iff _
  · intro team rows ys h j hj hr
    have hstep := teamLoop_get team rows.length rows 0 initAcc ys h j hj hr
    rw [Nat.zero_add] at hstep
    obtain ⟨b, hside, hy⟩ := teamStep_ok_row hstep
    constructor
    · intro hline
      obtain ⟨l, hl⟩ := Option.ne_none_iff_exists'.mp hline
      rw [hy, rowCalc_won_on_spread, rowCalc_lost_on_spread]
      apply spread_complement
      rw [rowCalc_cover_margin_game]
      cases b
      · rw [if_neg (by simp), hl]
        simp [nanAdd, nanNeg]
      · rw [if_pos rfl, hl]
        simp [nanAdd]
    · rw [hy, rowCalc_won_on_points, rowCalc_lost_on_points]
      exact points_flags_iff _

/-!
## Concrete runs of the team frame generator
-/

/-- A two-game partition for team `A`: a home win then an away loss. -/
def c3rows : List GameRow :=
  [⟨"A", "B", some 30, some 20, some (-3), some 45⟩,
   ⟨"B", "A", some 21, some 14, some 2, some 40⟩]

/-- The team frame `generate_team_frame "A" c3rows` computes. -/
def c3ys : List TeamRow :=
  [⟨10, 1, 0, 0, true, false, some 7, true, false, 50, 5, true, false,
    1, 0, 1, 0, 1, 0⟩,
   ⟨-7, 1, 1, 0, false, true, some (-9), false, true, 35, -5, false, true,
    0, 1, 0, 1, 0, 1⟩]

/-- A one-game partition for team `A`, won on points. -/
def c4rows : List GameRow :=
  [⟨"A", "B", some 30, some 20, some (-3), some 45⟩]

/-- The team frame `generate_team_frame "A" c4rows` computes: every streak
is 0 although every outcome flag of the single row is decided. -/
def c4ys : List TeamRow :=
  [⟨10, 1, 0, 0, true, false, some 7, true, false, 50, 5, true, false,
    0, 0, 0, 0, 0, 0⟩]

/-- A one-game partition whose home score is missing (NaN) while the line
and the over/under total are present. -/
def c7rows : List GameRow :=
  [⟨"A", "B", none, some 20, some 3, some 10⟩]

/-- The team frame `generate_team_frame "A" c7rows` computes:
`point_margin_game` and `total_points` keep the zero default, but
`cover_margin_game = 0 + 3` and `overunder_margin = 0 - 10` are assigned. -/
def c7ys : List TeamRow :=
  [⟨0, 0, 0, 1, false, false, some 3, true, false, 0, -10, false, true,
    0, 0, 0, 0, 0, 0⟩]

theorem c3ys_spec : generate_team_frame "A" c3rows = Except.ok c3ys := by
  norm_num [generate_team_frame, teamLoop, teamStep, sideOf, rowCalc, pushAcc,
    initAcc, streakSeries, get_streak, streakLoop, get_point_margin, get_wins,
    get_losses, get_ties, nanAdd, nanNeg, nanGtZero, nanLtZero, nanLeZero,
    c3rows, c3ys, (by decide : ("A" : String) ≠ "B"),
    (by decide : ("B" : String) ≠ "A")]

theorem c4ys_spec : generate_team_frame "A" c4rows = Except.ok c4ys := by
  norm_num [generate_team_frame, teamLoop, teamStep, sideOf, rowCalc, pushAcc,
    initAcc, streakSeries, get_streak, streakLoop, get_point_margin, get_wins,
    get_losses, get_ties, nanAdd, nanNeg, nanGtZero, nanLtZero, nanLeZero,
    c4rows, c4ys, (by decide : ("A" : String) ≠ "B"),
    (by decide : ("B" : String) ≠ "A")]

theorem c7ys_spec : generate_team_frame "A" c7rows = Except.ok c7ys := by
  norm_num [generate_team_frame, teamLoop, teamStep, sideOf, rowCalc, pushAcc,
    initAcc, streakSeries, get_streak, streakLoop, get_point_margin, get_wins,
    get_losses, get_ties, nanAdd, nanNeg, nanGtZero, nanLtZero, nanLeZero,
    c7rows, c7ys, (by decide : ("A" : String) ≠ "B"),
    (by decide : ("B" : String) ≠ "A")]

/-- Witness for C3: the recurrence at row 1 of a concrete two-game run. -/
theorem C3_cumulative_counters_witness :
    (c3ys.get ⟨1, by decide⟩).wins =
      (c3ys.get ⟨0, by decide⟩).wins +
        get_wins (c3ys.get ⟨1, by decide⟩).point_margin_game :=
  ((C3_cumulative_counters "A" c3rows c3ys c3ys_spec).1 0 (by decide)).1

/-- **C4** (counterexample): on a one-game partition whose only row won on
points, the claim as stated forces `point_win_streak = 1` at row 0, but
the code computes 0: with `window = 0` the scan is bounded by
`len(series) - 1 = 0` games. -/
theorem C4_counterexample :
    generate_team_frame "A" c4rows = .ok c4ys ∧
    (c4ys.get ⟨0, by decide⟩).won_on_points = true ∧
    (c4ys.get ⟨0, by decide⟩).point_win_streak = 0 ∧
    (c4ys.get ⟨0, by decide⟩).point_win_streak ≠ 1 :=
  ⟨c4ys_spec, by decide, by decide, by decide⟩

/-- Witness for C4: row 1 of the concrete two-game run lost on points, so
its point-win streak is 0. -/
theorem C4_streak_monotonicity_witness :
    (c3ys.map (·.point_win_streak)).getD 1 0 = 0 :=
  ((C4_streak_monotonicity "A" c3rows c3ys c3ys_spec).1 1 (by decide)).1
    (by decide)

/-- Witness for C5: the home game of the concrete two-game run. -/
theorem C5_cover_margin_witness :
    (c3ys.get ⟨0, by decide⟩).cover_margin_game =
      nanAdd (c3ys.get ⟨0, by decide⟩).point_margin_game
        (c3rows.get ⟨0, by decide⟩).line :=
  (C5_cover_margin "A" c3rows c3ys c3ys_spec 0 (by decide) (by decide)).1 rfl

/-- **C7** (counterexample): with the home score missing but line `3` and
over/under `10` present, the loop raises nothing, but `cover_margin_game`
is assigned `0 + 3 = 3` and `overunder_margin` is assigned
`0 - 10 = -10` — neither field keeps the zero default the claim
promises for rows with a missing score. -/
theorem C7_counterexample :
    generate_team_frame "A" c7rows = .ok c7ys ∧
    (c7ys.get ⟨0, by decide⟩).cover_margin_game = some 3 ∧
    ¬((c7ys.get ⟨0, by decide⟩).cover_margin_game = some 0) ∧
    (c7ys.get ⟨0, by decide⟩).overunder_margin = -10 ∧
    ¬((c7ys.get ⟨0, by decide⟩).overunder_margin = 0) :=
  ⟨c7ys_spec, by decide, by decide, by decide, by decide⟩

/-- Witness for C7: the guarded fields of the concrete missing-score run
keep their zero defaults. -/
theorem C7_missing_values_witness :
    (c7ys.get ⟨0, by decide⟩).point_margin_game = 0 ∧
    (c7ys.get ⟨0, by decide⟩).total_points = 0 :=
  (C7_missing_values "A" c7rows c7ys c7ys_spec 0 (by decide) (by decide)).1
    (Or.inl rfl)

/-- **C10** (counterexample): a game row whose line is missing: the cover
margin is NaN, so `won_on_spread` and `lost_on_spread` are *both false* —
they are not exact complements on every row. -/
theorem C10_counterexample :
    (gameRowCalc ⟨"H", "A", some 20, some 10, none, some 25⟩).won_on_spread
        = false ∧
    (gameRowCalc ⟨"H", "A", some 20, some 10, none, some 25⟩).lost_on_spread
        = false := by
  decide

/-- Witness for C10: a game row with the line present. -/
theorem C10_spread_flags_witness :
    (gameRowCalc ⟨"H", "A", some 20, some 10, some 3, some 25⟩).won_on_spread
      = !(gameRowCalc
            ⟨"H", "A", some 20, some 10, some 3, some 25⟩).lost_on_spread :=
  C10_spread_flags.1 ⟨"H", "A", some 20, some 10, some 3, some 25⟩
    (by decide)

/-!
## The sports schema (`sports_dict`, lines 76-114) and the merge dictionary
-/

/-- A feature kind of the typed schema.  Python compares the dictionary
value against the type objects `int`, `float`, `bool`; any other value
falls through to the `ValueError` branch of `add_features`, which `other`
models. -/
inductive FKind
  | int
  | float
  | bool
  | other (name : String)
deriving Repr, DecidableEq

/-- `sports_dict` (lines 76-114): the per-team feature schema, in source
order. -/
def sports_dict : List (String × FKind) :=
  [("wins", .int), ("losses", .int), ("ties", .int),
   ("days_since_first_game", .int), ("days_since_previous_game", .int),
   ("won_on_points", .bool), ("lost_on_points", .bool),
   ("won_on_spread", .bool), ("lost_on_spread", .bool),
   ("point_win_streak", .int), ("point_loss_streak", .int),
   ("point_margin_game", .int), ("point_margin_season", .int),
   ("point_margin_season_avg", .float), ("point_margin_streak", .int),
   ("point_margin_streak_avg", .float), ("point_margin_ngames", .int),
   ("point_margin_ngames_avg", .float),
   ("cover_win_streak", .int), ("cover_loss_streak", .int),
   ("cover_margin_game", .float), ("cover_margin_season", .float),
   ("cover_margin_season_avg", .float), ("cover_margin_streak", .float),
   ("cover_margin_streak_avg", .float), ("cover_margin_ngames", .float),
   ("cover_margin_ngames_avg", .float),
   ("total_points", .int), ("overunder_margin", .float),
   ("over", .bool), ("under", .bool),
   ("over_streak", .int), ("under_streak", .int),
   ("overunder_season", .float), ("overunder_season_avg", .float),
   ("overunder_streak", .float), ("overunder_streak_avg", .float),
   ("overunder_ngames", .float), ("overunder_ngames_avg", .float)]

/-- `game_dict` (lines 122-130): the game-level leader schema. -/
def game_dict : List (String × FKind) :=
  [("point_margin_game", .int), ("won_on_points", .bool),
   ("lost_on_points", .bool), ("cover_margin_game", .float),
   ("won_on_spread", .bool), ("lost_on_spread", .bool),
   ("overunder_margin", .float), ("over", .bool), ("under", .bool)]

/-- `mdict` (line 1571): `{k:v for (k,v) in sports_dict.items() if v != bool}`. -/
def mdict : List (String × FKind) :=
  sports_dict.filter (fun kv => decide (kv.2 ≠ FKind.bool))

/-- The key list of the merge dictionary, in source order. -/
def mdictKeys : List String := mdict.map (·.1)

/-!
## The merge engine (`main` lines 1585-1610 and `insert_model_data`)
-/

/-- A Team Statistics Row as the merge loop reads it: the matching keys
`home.team`, `away.team`, `date`, and the statistics cells `team_row[key]`
as a total map (after `generate_team_frame` the team frame has every
`mdict` column). -/
structure TSRow where
  home_team : String
  away_team : String
  date : String
  stats : String → ℚ

/-- A Model Frame Row: the matching keys and the cell values as an
association list of column name to value, updated in place by
`mf.at[mpos, newkey] = ...`. -/
structure MRow where
  home_team : String
  away_team : String
  date : String
  cols : List (String × ℚ)
deriving Repr, DecidableEq

/-- The matching keys of a model row; cell insertion never changes them. -/
def keyOf (m : MRow) : String × String × String :=
  (m.home_team, m.away_team, m.date)

/-- Cell read `row[key]` on an association-list row. -/
def getCol : List (String × ℚ) → String → Option ℚ
  | [], _ => none
  | (k, w) :: rest, key => if k = key then some w else getCol rest key

/-- Cell write `row[key] = v`: replace the value of an existing column of
that name, or append the column. -/
def setCol : List (String × ℚ) → String → ℚ → List (String × ℚ)
  | [], key, v => [(key, v)]
  | (k, w) :: rest, key, v =>
    if k = key then (k, v) :: rest else (k, w) :: setCol rest key v

/-- The column prefix for a side: `team1_prefix = 'home'`,
`team2_prefix = 'away'` (lines 1480-1481). -/
def sideName (at_home : Bool) : String := if at_home then "home" else "away"

/-- Role determination of the merge loop (lines 1593-1600): home first,
then away, else the `KeyError`. -/
def sideOfT (team : String) (row : TSRow) : Option Bool :=
  if team = row.home_team then some true
  else if team = row.away_team then some false
  else none

/-- The key-loop of `insert_model_data` (lines 1290-1294) applied to one
row's columns: for each `key` of `mdict`, assign cell
`prefix.key := team_row[key]`. -/
def insertCols : List String → String → (String → ℚ) →
    List (String × ℚ) → List (String × ℚ)
  | [], _, _, cols => cols
  | key :: rest, pfx, tstats, cols =>
    insertCols rest pfx tstats (setCol cols (pkey pfx key) (tstats key))

/-- `insert_model_data(mf, mpos, mdict, tf, tpos, prefix)`
(lines 1289-1295): `team_row = tf.iloc[tpos]`, then the key-loop of cell
assignments into row `mpos` of the model frame.  Both positions are in
range at every call site of the merge loop. -/
def insert_model_data (mf : List MRow) (mpos : Nat) (mdict : List String)
    (tf : List TSRow) (tpos : Nat) (pfx : String) : List MRow :=
  match tf.get? tpos, mf.get? mpos with
  | some team_row, some mrow =>
    mf.set mpos { mrow with cols := insertCols mdict pfx team_row.stats mrow.cols }
  | _, _ => mf

/-- `np.where((mf[side] == key_team) & (mf['date'] == key_date))[0][0]`:
the first index satisfying the predicate, if any. -/
def findFirstIdx (p : MRow → Bool) : List MRow → Option Nat
  | [] => none
  | m :: rest => if p m then some 0 else (findFirstIdx p rest).map (· + 1)

/-- The match predicate of lines 1603-1605. -/
def matchPred (at_home : Bool) (key_team key_date : String) (m : MRow) :
    Bool :=
  ((if at_home then m.home_team else m.away_team) == key_team) &&
    (m.date == key_date)

/-- One iteration of the merge loop (lines 1589-1610): `gindex = index+1`,
`model_row = tf.iloc[gindex]`, role and key determination (`KeyError` if
the team matches neither side), the first-match position lookup
(`IndexError` if no row matches, from the bare `except` around
`np.where(...)[0][0]`), then the insertion of `tf.iloc[index]`'s
statistics under the `home`/`away` prefix. -/
def mergeStep (team : String) (mdict : List String) (tf : List TSRow)
    (mf : List MRow) (index : Nat) : Except String (List MRow) :=
  match tf.get? (index + 1) with
  | none => .error "single positional indexer is out-of-bounds"
  | some model_row =>
    match sideOfT team model_row with
    | none => .error "Team not found in Team Frame"
    | some at_home =>
      let key_team :=
        if at_home then model_row.home_team else model_row.away_team
      match findFirstIdx (matchPred at_home key_team model_row.date) mf with
      | none => .error "Team/Date Key not found in Model Frame"
      | some mpos =>
        .ok (insert_model_data mf mpos mdict tf index (sideName at_home))

/-- The merge loop over the iteration indices. -/
def mergeLoopAux (team : String) (mdict : List String) (tf : List TSRow) :
    List Nat → List MRow → Except String (List MRow)
  | [], mf => .ok mf
  | idx :: rest, mf =>
    match mergeStep team mdict tf mf idx with
    | .error e => .error e
    | .ok mf' => mergeLoopAux team mdict tf rest mf'

/-- The merge loop of `main` for one team frame:
`for index in range(0, tf.shape[0]-1)` (line 1589). -/
def mergeTeam (team : String) (mdict : List String) (tf : List TSRow)
    (mf : List MRow) : Except String (List MRow) :=
  mergeLoopAux team mdict tf (List.range (tf.length - 1)) mf

/-- The `(mpos, at_home)` pair iteration `index` writes to, computed
against a fixed model frame (insertion never changes the matching keys, so
the positions are stable across the whole loop); `none` when the iteration
raises instead. -/
def writeTarget (team : String) (tf : List TSRow) (mf : List MRow)
    (index : Nat) : Option (Nat × Bool) :=
  match tf.get? (index + 1) with
  | none => none
  | some model_row =>
    match sideOfT team model_row with
    | none => none
    | some at_home =>
      let key_team :=
        if at_home then model_row.home_team else model_row.away_team
      match findFirstIdx (matchPred at_home key_team model_row.date) mf with
      | none => none
      | some mpos => some (mpos, at_home)

/-- Cell read on row `p` of the model frame. -/
def rowLookup (mf : List MRow) (p : Nat) (key : String) : Option ℚ :=
  match mf.get? p with
  | some m => getCol m.cols key
  | none => none

/-!
## Prefixed column names do not collide
-/

theorem pkey_eq_append (pfx k : String) (h : pfx ≠ "") :
    pkey pfx k = pfx ++ PSEP ++ k := if_pos h

theorem pkey_home_away_ne (k k' : String) :
    pkey "home" k ≠ pkey "away" k' := by
  intro h
  rw [pkey_eq_append _ _ (by decide), pkey_eq_append _ _ (by decide)] at h
  have hd := congrArg String.data h
  simp [String.data_append, PSEP] at hd

theorem pkey_side_ne (b b' : Bool) (hb : b ≠ b') (k k' : String) :
    pkey (sideName b) k ≠ pkey (sideName b') k' := by
  cases b <;> cases b'
  · exact absurd rfl hb
  · intro h
    exact pkey_home_away_ne k' k h.symm
  · intro h
    exact pkey_home_away_ne k k' h
  · exact absurd rfl hb

theorem pkey_side_inj (b : Bool) (k k' : String)
    (h : pkey (sideName b) k = pkey (sideName b) k') : k = k' := by
  obtain ⟨d1⟩ := k
  obtain ⟨d2⟩ := k'
  cases b <;>
  · rw [pkey_eq_append _ _ (by decide), pkey_eq_append _ _ (by decide)] at h
    have hd := congrArg String.data h
    simp [String.data_append, PSEP, sideName] at hd
    exact congrArg String.mk hd

/-!
## Cell reads and writes on association-list rows
-/

theorem getCol_setCol_self (cols : List (String × ℚ)) (key : String)
    (v : ℚ) : getCol (setCol cols key v) key = some v := by
  induction cols with
  | nil => simp [setCol, getCol]
  | cons kv rest ih =>
    obtain ⟨k, w⟩ := kv
    by_cases hk : k = key
    · simp [setCol, hk, getCol]
    · simp [setCol, hk, getCol, ih]

theorem getCol_setCol_ne (cols : List (String × ℚ)) (key key' : String)
    (v : ℚ) (h : key ≠ key') :
    getCol (setCol cols key v) key' = getCol cols key' := by
  induction cols with
  | nil => simp [setCol, getCol, h]
  | cons kv rest ih =>
    obtain ⟨k, w⟩ := kv
    by_cases hk : k = key
    · subst hk
      simp [setCol, getCol, h]
    · simp [setCol, hk, getCol, ih]

theorem getCol_insertCols_not_mem (pfx : String) (ts : String → ℚ) :
    ∀ (mdictl : List String) (cols : List (String × ℚ)) (key : String),
      (∀ k ∈ mdictl, pkey pfx k ≠ key) →
      getCol (insertCols mdictl pfx ts cols) key = getCol cols key := by
  intro mdictl
  induction mdictl with
  | nil =>
    intro cols key h
    rfl
  | cons k0 rest ih =>
    intro cols key h
    rw [insertCols]
    rw [ih _ key (fun k hk => h k (List.mem_cons_of_mem k0 hk))]
    exact getCol_setCol_ne _ _ _ _ (h k0 (List.mem_cons_self k0 rest))

theorem getCol_insertCols_mem (pfx : String) (ts : String → ℚ)
    (hinj : ∀ k1 k2 : String, pkey pfx k1 = pkey pfx k2 → k1 = k2) :
    ∀ (mdictl : List String) (cols : List (String × ℚ)) (k : String),
      k ∈ mdictl →
      getCol (insertCols mdictl pfx ts cols) (pkey pfx k) = some (ts k) := by
  intro mdictl
  induction mdictl with
  | nil =>
    intro cols k hk
    cases hk
  | cons k0 rest ih =>
    intro cols k hk
    by_cases hmem : k ∈ rest
    · rw [insertCols]
      exact ih _ k hmem
    · have hk0 : k = k0 := by
        rcases List.mem_cons.mp hk with h | h
        · exact h
        · exact absurd h hmem
      subst hk0
      rw [insertCols]
      rw [getCol_insertCols_not_mem pfx ts rest _ (pkey pfx k)
            (fun k' hk' he => hmem (hinj k' k he ▸ hk'))]
      exact getCol_setCol_self _ _ _

/-!
## List indexing under cell insertion
-/

theorem get_set_self {α : Type} (l : List α) (n : Nat) (a : α)
    (h : n < l.length) : (l.set n a).get? n = some a := by
  induction l generalizing n with
  | nil => simp at h
  | cons x xs ih =>
    cases n with
    | zero => rfl
    | succ m => exact ih m (by simpa using h)

theorem get_set_ne {α : Type} (l : List α) (n m : Nat) (a : α)
    (h : n ≠ m) : (l.set n a).get? m = l.get? m := by
  induction l generalizing n m with
  | nil => rfl
  | cons x xs ih =>
    cases n with
    | zero =>
      cases m with
      | zero => exact absurd rfl h
      | succ m' => rfl
    | succ n' =>
      cases m with
      | zero => rfl
      | succ m' => exact ih n' m' (fun hc => h (congrArg Nat.succ hc))

theorem map_keyOf_set (mf : List MRow) (mpos : Nat) (mrow : MRow)
    (cols' : List (String × ℚ)) (h : mf.get? mpos = some mrow) :
    (mf.set mpos { mrow with cols := cols' }).map keyOf = mf.map keyOf := by
  induction mf generalizing mpos with
  | nil => exact Option.noConfusion h
  | cons m rest ih =>
    cases mpos with
    | zero =>
      injection h with h
      subst h
      simp [List.set, keyOf]
    | succ p =>
      simp only [List.set, List.map_cons]
      rw [ih p (by simpa using h)]

theorem insert_model_data_keys (mf : List MRow) (mpos : Nat)
    (mdictl : List String) (tf : List TSRow) (tpos : Nat) (pfx : String) :
    (insert_model_data mf mpos mdictl tf tpos pfx).map keyOf =
      mf.map keyOf := by
  unfold insert_model_data
  cases h1 : tf.get? tpos with
  | none => rfl
  | some trow =>
    cases h2 : mf.get? mpos with
    | none => rfl
    | some mrow => exact map_keyOf_set mf mpos mrow _ h2

theorem get?_insert_ne (mf : List MRow) (mpos : Nat) (mdictl : List String)
    (tf : List TSRow) (tpos : Nat) (pfx : String) (q : Nat) (h : q ≠ mpos) :
    (insert_model_data mf mpos mdictl tf tpos pfx).get? q = mf.get? q := by
  unfold insert_model_data
  cases h1 : tf.get? tpos with
  | none => rfl
  | some trow =>
    cases h2 : mf.get? mpos with
    | none => rfl
    | some mrow => exact get_set_ne mf mpos q _ (fun hc => h hc.symm)

/-!
## First-match position lookup
-/

theorem findFirstIdx_lt_length (p : MRow → Bool) :
    ∀ (l : List MRow) (i : Nat), findFirstIdx p l = some i → i < l.length := by
  intro l
  induction l with
  | nil =>
    intro i h
    exact Option.noConfusion h
  | cons m rest ih =>
    intro i h
    unfold findFirstIdx at h
    by_cases hp : p m = true
    · rw [if_pos hp] at h
      injection h with h
      simp [← h]
    · rw [if_neg hp] at h
      cases hrec : findFirstIdx p rest with
      | none =>
        rw [hrec] at h
        exact Option.noConfusion h
      | some j =>
        rw [hrec] at h
        injection h with h
        have := ih j hrec
        simp [← h]
        omega

theorem matchPred_keyOf (b : Bool) (kt kd : String) (m m' : MRow)
    (h : keyOf m = keyOf m') : matchPred b kt kd m = matchPred b kt kd m' := by
  unfold keyOf at h
  simp only [Prod.mk.injEq] at h
  obtain ⟨h1, h2, h3⟩ := h
  unfold matchPred
  rw [h1, h2, h3]

theorem findFirstIdx_congr (p : MRow → Bool)
    (hp : ∀ m m', keyOf m = keyOf m' → p m = p m') :
    ∀ (l₁ l₂ : List MRow), l₁.map keyOf = l₂.map keyOf →
      findFirstIdx p l₁ = findFirstIdx p l₂ := by
  intro l₁
  induction l₁ with
  | nil =>
    intro l₂ h
    have h2 : l₂ = [] := by simpa using (List.map_eq_nil_iff.mp h.symm)
    subst h2
    rfl
  | cons m r ih =>
    intro l₂ h
    cases l₂ with
    | nil => simp at h
    | cons m' r' =>
      simp only [List.map_cons, List.cons.injEq] at h
      obtain ⟨hm, hr⟩ := h
      unfold findFirstIdx
      rw [hp m m' hm, ih r' hr]

/-!
## One merge iteration
-/

theorem mergeStep_ok_elim (team : String) (mdictl : List String)
    (tf : List TSRow) (mf : List MRow) (idx : Nat) (mf' : List MRow)
    (h : mergeStep team mdictl tf mf idx = .ok mf') :
    ∃ p s, writeTarget team tf mf idx = some (p, s) ∧
      mf' = insert_model_data mf p mdictl tf idx (sideName s) := by
  unfold mergeStep at h
  unfold writeTarget
  cases h1 : tf.get? (idx + 1) with
  | none =>
    simp only [h1] at h
    exact Except.noConfusion h
  | some model_row =>
    simp only [h1] at h ⊢
    cases h2 : sideOfT team model_row with
    | none =>
      simp only [h2] at h
      exact Except.noConfusion h
    | some at_home =>
      simp only [h2] at h ⊢
      cases h3 : findFirstIdx (matchPred at_home
          (if at_home then model_row.home_team else model_row.away_team)
          model_row.date) mf with
      | none =>
        simp only [h3] at h
        exact Except.noConfusion h
      | some mpos =>
        simp only [h3] at h ⊢
        injection h with h
        exact ⟨mpos, at_home, rfl, h.symm⟩

theorem mergeStep_of_writeTarget (team : String) (mdictl : List String)
    (tf : List TSRow) (mf : List MRow) (idx p : Nat) (s : Bool)
    (h : writeTarget team tf mf idx = some (p, s)) :
    mergeStep team mdictl tf mf idx =
      .ok (insert_model_data mf p mdictl tf idx (sideName s)) := by
  unfold writeTarget at h
  unfold mergeStep
  cases h1 : tf.get? (idx + 1) with
  | none =>
    simp only [h1] at h
    exact Option.noConfusion h
  | some model_row =>
    simp only [h1] at h ⊢
    cases h2 : sideOfT team model_row with
    | none =>
      simp only [h2] at h
      exact Option.noConfusion h
    | some at_home =>
      simp only [h2] at h ⊢
      cases h3 : findFirstIdx (matchPred at_home
          (if at_home then model_row.home_team else model_row.away_team)
          model_row.date) mf with
      | none =>
        simp only [h3] at h
        exact Option.noConfusion h
      | some mpos =>
        simp only [h3] at h ⊢
        injection h with h
        injection h with hp hs
        subst hp
        subst hs
        rfl

theorem mergeStep_keys (team : String) (mdictl : List String)
    (tf : List TSRow) (mf : List MRow) (idx : Nat) (mf' : List MRow)
    (h : mergeStep team mdictl tf mf idx = .ok mf') :
    mf'.map keyOf = mf.map keyOf := by
  obtain ⟨p, s, hw, he⟩ := mergeStep_ok_elim team mdictl tf mf idx mf' h
  rw [he]
  exact insert_model_data_keys mf p mdictl tf idx (sideName s)

theorem writeTarget_congr (team : String) (tf : List TSRow)
    (mf₁ mf₂ : List MRow) (hk : mf₁.map keyOf = mf₂.map keyOf) (idx : Nat) :
    writeTarget team tf mf₁ idx = writeTarget team tf mf₂ idx := by
  unfold writeTarget
  cases h1 : tf.get? (idx + 1) with
  | none => rfl
  | some model_row =>
    simp only [h1]
    cases h2 : sideOfT team model_row with
    | none => rfl
    | some at_home =>
      simp only [h2]
      rw [findFirstIdx_congr _ (matchPred_keyOf at_home _ _) mf₁ mf₂ hk]

theorem writeTarget_pos_lt (team : String) (tf : List TSRow)
    (mf : List MRow) (idx p : Nat) (s : Bool)
    (h : writeTarget team tf mf idx = some (p, s)) : p < mf.length := by
  unfold writeTarget at h
  cases h1 : tf.get? (idx + 1) with
  | none =>
    simp only [h1] at h
    exact Option.noConfusion h
  | some model_row =>
    simp only [h1] at h
    cases h2 : sideOfT team model_row with
    | none =>
      simp only [h2] at h
      exact Option.noConfusion h
    | some at_home =>
      simp only [h2] at h
      cases h3 : findFirstIdx (matchPred at_home
          (if at_home then model_row.home_team else model_row.away_team)
          model_row.date) mf with
      | none =>
        simp only [h3] at h
        exact Option.noConfusion h
      | some mpos =>
        simp only [h3] at h
        injection h with h
        injection h with hp hs
        subst hp
        exact findFirstIdx_lt_length _ mf _ h3

/-!
## Reading inserted cells back
-/

theorem rowLookup_insert_mem (mf : List MRow) (p : Nat)
    (mdictl : List String) (tf : List TSRow) (tpos : Nat) (s : Bool)
    (trow : TSRow) (k : String) (htf : tf.get? tpos = some trow)
    (hp : p < mf.length) (hk : k ∈ mdictl) :
    rowLookup (insert_model_data mf p mdictl tf tpos (sideName s)) p
        (pkey (sideName s) k) = some (trow.stats k) := by
  obtain ⟨mrow, hm⟩ : ∃ m, mf.get? p = some m := by
    cases hq : mf.get? p with
    | none =>
      rw [List.get?_eq_none] at hq
      omega
    | some m => exact ⟨m, rfl⟩
  have hI : insert_model_data mf p mdictl tf tpos (sideName s) =
      mf.set p
        { mrow with cols := insertCols mdictl (sideName s) trow.stats mrow.cols } := by
    unfold insert_model_data
    simp only [htf, hm]
  rw [hI]
  unfold rowLookup
  simp only [get_set_self mf p _ hp]
  exact getCol_insertCols_mem (sideName s) trow.stats (pkey_side_inj s)
    mdictl mrow.cols k hk

theorem rowLookup_insert_preserve (mf : List MRow) (mpos : Nat)
    (mdictl : List String) (tf : List TSRow) (tpos : Nat) (s s' : Bool)
    (p : Nat) (k : String) (h : p ≠ mpos ∨ s' ≠ s) :
    rowLookup (insert_model_data mf mpos mdictl tf tpos (sideName s')) p
        (pkey (sideName s) k) =
      rowLookup mf p (pkey (sideName s) k) := by
  by_cases hp : p = mpos
  · have hss : s' ≠ s := by
      rcases h with h | h
      · exact absurd hp h
      · exact h
    subst hp
    cases h1 : tf.get? tpos with
    | none =>
      unfold insert_model_data
      simp only [h1]
    | some trow =>
      cases h2 : mf.get? p with
      | none =>
        unfold insert_model_data
        simp only [h1, h2]
      | some mrow =>
        obtain ⟨hlt, -⟩ := List.get?_eq_some.mp h2
        have hI : insert_model_data mf p mdictl tf tpos (sideName s') =
            mf.set p
              { mrow with
                cols := insertCols mdictl (sideName s') trow.stats mrow.cols } := by
          unfold insert_model_data
          simp only [h1, h2]
        rw [hI]
        unfold rowLookup
        simp only [get_set_self mf p _ hlt, h2]
        exact getCol_insertCols_not_mem (sideName s') trow.stats mdictl
          mrow.cols _ (fun k' _ => pkey_side_ne s' s hss k' k)
  · unfold rowLookup
    rw [get?_insert_ne mf mpos mdictl tf tpos _ p hp]

/-!
## The merge loop
-/

theorem mergeLoopAux_keys (team : String) (mdictl : List String)
    (tf : List TSRow) :
    ∀ (idxs : List Nat) (mf mf' : List MRow),
      mergeLoopAux team mdictl tf idxs mf = .ok mf' →
      mf'.map keyOf = mf.map keyOf := by
  intro idxs
  induction idxs with
  | nil =>
    intro mf mf' h
    injection h with h
    rw [h]
  | cons idx rest ih =>
    intro mf mf' h
    simp only [mergeLoopAux] at h
    cases hstep : mergeStep team mdictl tf mf idx with
    | error e =>
      simp only [hstep] at h
      exact Except.noConfusion h
    | ok mf₁ =>
      simp only [hstep] at h
      rw [ih mf₁ mf' h, mergeStep_keys team mdictl tf mf idx mf₁ hstep]

theorem mergeLoopAux_untouched (team : String) (mdictl : List String)
    (tf : List TSRow) :
    ∀ (idxs : List Nat) (mf mf' : List MRow),
      mergeLoopAux team mdictl tf idxs mf = .ok mf' →
      ∀ (p : Nat) (s : Bool),
        (∀ idx ∈ idxs, writeTarget team tf mf idx ≠ some (p, s)) →
        ∀ k : String,
          rowLookup mf' p (pkey (sideName s) k) =
            rowLookup mf p (pkey (sideName s) k) := by
  intro idxs
  induction idxs with
  | nil =>
    intro mf mf' h p s hw k
    injection h with h
    rw [h]
  | cons idx rest ih =>
    intro mf mf' h p s hw k
    simp only [mergeLoopAux] at h
    cases hstep : mergeStep team mdictl tf mf idx with
    | error e =>
      simp only [hstep] at h
      exact Except.noConfusion h
    | ok mf₁ =>
      simp only [hstep] at h
      obtain ⟨p', s', hwt, he⟩ :=
        mergeStep_ok_elim team mdictl tf mf idx mf₁ hstep
      have hkeys : mf₁.map keyOf = mf.map keyOf :=
        mergeStep_keys team mdictl tf mf idx mf₁ hstep
      have hrest : ∀ idx' ∈ rest, writeTarget team tf mf₁ idx' ≠ some (p, s) := by
        intro idx' hm
        rw [writeTarget_congr team tf mf₁ mf hkeys idx']
        exact hw idx' (List.mem_cons_of_mem idx hm)
      rw [ih mf₁ mf' h p s hrest k, he]
      have hne : p ≠ p' ∨ s' ≠ s := by
        by_cases hpp : p = p'
        · subst hpp
          right
          intro hss
          subst hss
          exact hw idx (List.mem_cons_self idx rest) hwt
        · exact Or.inl hpp
      exact rowLookup_insert_preserve mf p' mdictl tf idx s s' p k hne

theorem mergeLoopAux_untouched_row (team : String) (mdictl : List String)
    (tf : List TSRow) :
    ∀ (idxs : List Nat) (mf mf' : List MRow),
      mergeLoopAux team mdictl tf idxs mf = .ok mf' →
      ∀ q : Nat,
        (∀ idx ∈ idxs, ∀ s : Bool,
          writeTarget team tf mf idx ≠ some (q, s)) →
        mf'.get? q = mf.get? q := by
  intro idxs
  induction idxs with
  | nil =>
    intro mf mf' h q hw
    injection h with h
    rw [h]
  | cons idx rest ih =>
    intro mf mf' h q hw
    simp only [mergeLoopAux] at h
    cases hstep : mergeStep team mdictl tf mf idx with
    | error e =>
      simp only [hstep] at h
      exact Except.noConfusion h
    | ok mf₁ =>
      simp only [hstep] at h
      obtain ⟨p', s', hwt, he⟩ :=
        mergeStep_ok_elim team mdictl tf mf idx mf₁ hstep
      have hkeys : mf₁.map keyOf = mf.map keyOf :=
        mergeStep_keys team mdictl tf mf idx mf₁ hstep
      have hrest : ∀ idx' ∈ rest, ∀ s : Bool,
          writeTarget team tf mf₁ idx' ≠ some (q, s) := by
        intro idx' hm s
        rw [writeTarget_congr team tf mf₁ mf hkeys idx']
        exact hw idx' (List.mem_cons_of_mem idx hm) s
      rw [ih mf₁ mf' h q hrest, he]
      have hq : q ≠ p' := by
        intro hc
        subst hc
        exact hw idx (List.mem_cons_self idx rest) s' hwt
      exact get?_insert_ne mf p' mdictl tf idx _ q hq

theorem mergeLoopAux_write (team : String) (mdictl : List String)
    (tf : List TSRow) :
    ∀ (rest₁ : List Nat) (mf mf' : List MRow) (rest₂ : List Nat)
      (idx p : Nat) (s : Bool) (trow : TSRow),
      mergeLoopAux team mdictl tf (rest₁ ++ idx :: rest₂) mf = .ok mf' →
      writeTarget team tf mf idx = some (p, s) →
      tf.get? idx = some trow →
      (∀ idx' ∈ rest₂, writeTarget team tf mf idx' ≠ some (p, s)) →
      ∀ k ∈ mdictl,
        rowLookup mf' p (pkey (sideName s) k) = some (trow.stats k) := by
  intro rest₁
  induction rest₁ with
  | nil =>
    intro mf mf' rest₂ idx p s trow h hwt htf hafter k hk
    have hstep := mergeStep_of_writeTarget team mdictl tf mf idx p s hwt
    simp only [List.nil_append, mergeLoopAux, hstep] at h
    have hkeys : (insert_model_data mf p mdictl tf idx (sideName s)).map keyOf =
        mf.map keyOf := insert_model_data_keys mf p mdictl tf idx (sideName s)
    have hafter' : ∀ idx' ∈ rest₂,
        writeTarget team tf (insert_model_data mf p mdictl tf idx (sideName s))
          idx' ≠ some (p, s) := by
      intro idx' hm
      rw [writeTarget_congr team tf _ mf hkeys idx']
      exact hafter idx' hm
    rw [mergeLoopAux_untouched team mdictl tf rest₂ _ mf' h p s hafter' _]
    exact rowLookup_insert_mem mf p mdictl tf idx s trow k htf
      (writeTarget_pos_lt team tf mf idx p s hwt) hk
  | cons j rest₁' ih =>
    intro mf mf' rest₂ idx p s trow h hwt htf hafter k hk
    simp only [List.cons_append, mergeLoopAux] at h
    cases hstep : mergeStep team mdictl tf mf j with
    | error e =>
      simp only [hstep] at h
      exact Except.noConfusion h
    | ok mf₁ =>
      simp only [hstep] at h
      have hkeys := mergeStep_keys team mdictl tf mf j mf₁ hstep
      refine ih mf₁ mf' rest₂ idx p s trow h ?_ htf ?_ k hk
      · rw [writeTarget_congr team tf mf₁ mf hkeys idx]
        exact hwt
      · intro idx' hm
        rw [writeTarget_congr team tf mf₁ mf hkeys idx']
        exact hafter idx' hm

theorem mem_drop_range {N m j : Nat} (h : j ∈ (List.range N).drop m) :
    m ≤ j ∧ j < N := by
  obtain ⟨i, hi, hget⟩ := List.mem_iff_getElem.mp h
  have hlen : ((List.range N).drop m).length = N - m := by simp
  have hmi : m + i < N := by
    rw [hlen] at hi
    omega
  have h2 : ((List.range N).drop m)[i] = m + i := by
    rw [← List.getElem_drop']
    exact List.getElem_range _ (by simpa using hmi)
  rw [h2] at hget
  omega

/-!
## Claim C2: the no-lookahead invariant of the merge loop
-/

/-- **C2**: for one team partition, if the merge loop succeeds then (i) for
every game index `g ≥ 1` of the partition, the model frame row matched by
game `g`'s (team, date) key on the team's side carries, in its
`home`/`away`-prefixed columns, exactly the statistics of Team Statistics
Row `g - 1` — the row strictly before game `g` — provided no later
iteration writes the same (row, side) target (distinct (team, date) keys);
and (ii) any model frame row targeted by no iteration — in particular the
row of the first game of the partition — is left completely unchanged, so
its prefixed columns keep their defaults. -/
theorem C2_no_lookahead (team : String) (tf : List TSRow)
    (mf mf' : List MRow) (h : mergeTeam team mdictKeys tf mf = .ok mf') :
    (∀ (g p : Nat) (s : Bool) (trow : TSRow),
      1 ≤ g → g < tf.length →
      writeTarget team tf mf (g - 1) = some (p, s) →
      tf.get? (g - 1) = some trow →
      (∀ j, g ≤ j → j < tf.length - 1 →
        writeTarget team tf mf j ≠ some (p, s)) →
      ∀ k ∈ mdictKeys,
        rowLookup mf' p (pkey (sideName s) k) = some (trow.stats k)) ∧
    (∀ q : Nat,
      (∀ j, j < tf.length - 1 → ∀ s : Bool,
        writeTarget team tf mf j ≠ some (q, s)) →
      mf'.get? q = mf.get? q) := by
  constructor
  · intro g p s trow hg1 hgn hwt htf hafter k hk
    have hidx : g - 1 < tf.length - 1 := by omega
    have hlen : (List.range (tf.length - 1)).length = tf.length - 1 :=
      List.length_range _
    have hgg : g - 1 + 1 = g := by omega
    have hdrop : (List.range (tf.length - 1)).drop (g - 1) =
        (g - 1) :: (List.range (tf.length - 1)).drop g := by
      rw [List.drop_eq_getElem_cons (by rw [hlen]; exact hidx), hgg]
      congr 1
      exact List.getElem_range _ (by simpa using hidx)
    have hsplit : List.range (tf.length - 1) =
        (List.range (tf.length - 1)).take (g - 1) ++
          ((g - 1) :: (List.range (tf.length - 1)).drop g) := by
      conv_lhs => rw [← List.take_append_drop (g - 1)
        (List.range (tf.length - 1))]
      rw [hdrop]
    have h' : mergeLoopAux team mdictKeys tf
        ((List.range (tf.length - 1)).take (g - 1) ++
          ((g - 1) :: (List.range (tf.length - 1)).drop g)) mf = .ok mf' := by
      rw [← hsplit]
      exact h
    refine mergeLoopAux_write team mdictKeys tf _ mf mf' _ (g - 1) p s trow
      h' hwt htf ?_ k hk
    intro idx' hm
    have hb := mem_drop_range hm
    exact hafter idx' hb.1 hb.2
  · intro q hq
    refine mergeLoopAux_untouched_row team mdictKeys tf _ mf mf' h q ?_
    intro idx hm s
    exact hq idx (List.mem_range.mp hm) s

/-!
## Claim C8: data-integrity errors
-/

theorem mergeLoopAux_all_match (team : String) (mdictl : List String)
    (tf : List TSRow) :
    ∀ (idxs : List Nat) (mf mf' : List MRow),
      mergeLoopAux team mdictl tf idxs mf = .ok mf' →
      ∀ idx ∈ idxs, ∃ p s, writeTarget team tf mf idx = some (p, s) := by
  intro idxs
  induction idxs with
  | nil =>
    intro mf mf' _ idx hm
    cases hm
  | cons idx0 rest ih =>
    intro mf mf' h idx hm
    simp only [mergeLoopAux] at h
    cases hstep : mergeStep team mdictl tf mf idx0 with
    | error e =>
      simp only [hstep] at h
      exact Except.noConfusion h
    | ok mf₁ =>
      simp only [hstep] at h
      obtain ⟨p0, s0, hw0, -⟩ :=
        mergeStep_ok_elim team mdictl tf mf idx0 mf₁ hstep
      rcases List.mem_cons.mp hm with hm | hm
      · subst hm
        exact ⟨p0, s0, hw0⟩
      · obtain ⟨p, s, hw⟩ := ih mf₁ mf' h idx hm
        refine ⟨p, s, ?_⟩
        rw [← writeTarget_congr team tf mf₁ mf
          (mergeStep_keys team mdictl tf mf idx0 mf₁ hstep) idx]
        exact hw

theorem mergeLoopAux_error_no_match (team : String) (mdictl : List String)
    (tf : List TSRow) :
    ∀ (idxs : List Nat) (mf : List MRow),
      (∀ idx ∈ idxs, ∃ cur, tf.get? (idx + 1) = some cur ∧
        ∃ b, sideOfT team cur = some b) →
      (∃ idx ∈ idxs, writeTarget team tf mf idx = none) →
      mergeLoopAux team mdictl tf idxs mf =
        .error "Team/Date Key not found in Model Frame" := by
  intro idxs
  induction idxs with
  | nil =>
    intro mf _ hex
    obtain ⟨i, hi, -⟩ := hex
    cases hi
  | cons idx rest ih =>
    intro mf hsides hex
    cases hwt : writeTarget team tf mf idx with
    | none =>
      obtain ⟨cur, hcur, b, hb⟩ := hsides idx (List.mem_cons_self idx rest)
      have hstep : mergeStep team mdictl tf mf idx =
          .error "Team/Date Key not found in Model Frame" := by
        unfold mergeStep
        unfold writeTarget at hwt
        simp only [hcur, hb] at hwt ⊢
        cases h3 : findFirstIdx (matchPred b
            (if b then cur.home_team else cur.away_team) cur.date) mf with
        | none => rfl
        | some mpos =>
          simp only [h3] at hwt
          exact Option.noConfusion hwt
      simp only [mergeLoopAux, hstep]
    | some ps =>
      obtain ⟨p, s⟩ := ps
      have hstep := mergeStep_of_writeTarget team mdictl tf mf idx p s hwt
      simp only [mergeLoopAux, hstep]
      obtain ⟨i, hi, hnone⟩ := hex
      rcases List.mem_cons.mp hi with hieq | hirest
      · subst hieq
        rw [hwt] at hnone
        exact Option.noConfusion hnone
      · refine ih _ (fun idx' hm => hsides idx'
          (List.mem_cons_of_mem idx hm)) ⟨i, hirest, ?_⟩
        rw [writeTarget_congr team tf _ mf
          (insert_model_data_keys mf p mdictl tf idx (sideName s)) i]
        exact hnone

theorem teamLoop_error_of_bad (team : String) (n : Nat) :
    ∀ (rows : List GameRow) (i : Nat) (acc : TeamAcc),
      (∃ r ∈ rows, team ≠ r.home_team ∧ team ≠ r.away_team) →
      teamLoop team n i acc rows = .error "Team not found in Team Frame" := by
  intro rows
  induction rows with
  | nil =>
    intro i acc h
    obtain ⟨r, hr, -⟩ := h
    cases hr
  | cons row rest ih =>
    intro i acc h
    by_cases hrow : team = row.home_team ∨ team = row.away_team
    · have hbad : ∃ r ∈ rest, team ≠ r.home_team ∧ team ≠ r.away_team := by
        obtain ⟨r, hr, hb⟩ := h
        rcases List.mem_cons.mp hr with hr | hr
        · subst hr
          rcases hrow with hh | hh
          · exact absurd hh hb.1
          · exact absurd hh hb.2
        · exact ⟨r, hr, hb⟩
      have hside : ∃ b, sideOf team row = some b := by
        unfold sideOf
        by_cases hh : team = row.home_team
        · exact ⟨true, if_pos hh⟩
        · rcases hrow with hr | hr
          · exact absurd hr hh
          · exact ⟨false, by rw [if_neg hh, if_pos hr]⟩
      obtain ⟨b, hb⟩ := hside
      simp only [teamLoop, teamStep, hb]
      rw [ih (i + 1) (pushAcc acc (rowCalc n i acc row b)) hbad]
    · push_neg at hrow
      have hside : sideOf team row = none := by
        unfold sideOf
        rw [if_neg hrow.1, if_neg hrow.2]
      simp only [teamLoop, teamStep, hside]

/-- **C8** (amended): the merge loop never silently skips a row — on a
successful run every iteration found a side and a (team, date) match; when
every iteration can determine its side but some iteration has *no*
(team, date) match in the model frame, the loop raises the index error
`"Team/Date Key not found in Model Frame"`; and `generate_team_frame`
raises the key error `"Team not found in Team Frame"` whenever some
partition row names the team on neither side.  (When several model rows
match the same (team, date) key, the code silently uses the first, so "no
unique match" only raises when there is no match at all.) -/
theorem C8_data_integrity :
    (∀ (team : String) (tf : List TSRow) (mf mf' : List MRow),
      mergeTeam team mdictKeys tf mf = .ok mf' →
      ∀ idx, idx < tf.length - 1 →
        ∃ p s, writeTarget team tf mf idx = some (p, s)) ∧
    (∀ (team : String) (tf : List TSRow) (mf : List MRow),
      (∀ idx, idx < tf.length - 1 → ∃ cur, tf.get? (idx + 1) = some cur ∧
        ∃ b, sideOfT team cur = some b) →
      (∃ idx, idx < tf.length - 1 ∧ writeTarget team tf mf idx = none) →
      mergeTeam team mdictKeys tf mf =
        .error "Team/Date Key not found in Model Frame") ∧
    (∀ (team : String) (rows : List GameRow),
      (∃ r ∈ rows, team ≠ r.home_team ∧ team ≠ r.away_team) →
      generate_team_frame team rows =
        .error "Team not found in Team Frame") := by
  refine ⟨?_, ?_, ?_⟩
  · intro team tf mf mf' h idx hidx
    exact mergeLoopAux_all_match team mdictKeys tf _ mf mf' h idx
      (List.mem_range.mpr hidx)
  · intro team tf mf hsides hex
    obtain ⟨idx, hidx, hnone⟩ := hex
    exact mergeLoopAux_error_no_match team mdictKeys tf _ mf
      (fun idx' hm => hsides idx' (List.mem_range.mp hm))
      ⟨idx, List.mem_range.mpr hidx, hnone⟩
  · intro team rows hbad
    exact teamLoop_error_of_bad team rows.length rows 0 initAcc hbad

/-!
## Concrete merge runs
-/

/-- `true` exactly on a non-error result. -/
def isOkE {α : Type} : Except String α → Bool
  | .ok _ => true
  | .error _ => false

/-- A two-game team frame for team `A` (all statistics of game 0 equal to
1, of game 1 equal to 2). -/
def c2tf : List TSRow :=
  [⟨"A", "B", "d1", fun _ => 1⟩, ⟨"A", "C", "d2", fun _ => 2⟩]

/-- A model frame with one row per game, empty prefixed columns. -/
def c2mf : List MRow :=
  [⟨"A", "B", "d1", []⟩, ⟨"A", "C", "d2", []⟩]

theorem c2merge_spec :
    mergeTeam "A" mdictKeys c2tf c2mf =
      .ok (insert_model_data c2mf 1 mdictKeys c2tf 0 (sideName true)) := by
  have hwt : writeTarget "A" c2tf c2mf 0 = some (1, true) := by decide
  have hstep := mergeStep_of_writeTarget "A" mdictKeys c2tf c2mf 0 1 true hwt
  show mergeLoopAux "A" mdictKeys c2tf (List.range (c2tf.length - 1)) c2mf = _
  have hrange : List.range (c2tf.length - 1) = [0] := by decide
  rw [hrange]
  simp only [mergeLoopAux, hstep]

/-- Witness for C2: in the concrete two-game merge, the model row of game 1
receives game 0's `wins` statistic under the `home` prefix. -/
theorem C2_no_lookahead_witness :
    rowLookup (insert_model_data c2mf 1 mdictKeys c2tf 0 (sideName true)) 1
        (pkey (sideName true) "wins") = some 1 :=
  (C2_no_lookahead "A" c2tf c2mf _ c2merge_spec).1 1 1 true
    ⟨"A", "B", "d1", fun _ => 1⟩ (by decide) (by decide) (by decide) rfl
    (fun j hj1 hj2 => by
      have hl : c2tf.length = 2 := by decide
      rw [hl] at hj2
      exact absurd hj2 (by omega))
    "wins" (by decide)

/-- A team frame whose second game's (team, date) key matches *two* rows
of the model frame. -/
def c8tf : List TSRow :=
  [⟨"A", "B", "d1", fun _ => 0⟩, ⟨"A", "C", "d2", fun _ => 0⟩]

/-- A model frame with two rows that both match (`A` at home, date `d2`):
no unique match exists for game 1. -/
def c8mf : List MRow :=
  [⟨"A", "X", "d2", []⟩, ⟨"A", "Y", "d2", []⟩]

/-- **C8** (counterexample): with two model rows matching game 1's
(team, date) key there is no *unique* match, yet the merge loop raises
nothing — `np.where(...)[0][0]` silently takes the first match and the
merge succeeds. -/
theorem C8_counterexample :
    (c8mf.filter (fun m => matchPred true "A" "d2" m)).length = 2 ∧
    isOkE (mergeTeam "A" mdictKeys c8tf c8mf) = true := by
  constructor
  · decide
  · decide

/-- Witness for C8: a partition row naming a team on neither side makes
`generate_team_frame` raise the key error. -/
theorem C8_data_integrity_witness :
    generate_team_frame "C" c3rows =
      .error "Team not found in Team Frame" :=
  C8_data_integrity.2.2 "C" c3rows
    ⟨⟨"A", "B", some 30, some 20, some (-3), some 45⟩, by decide, by decide,
      by decide⟩

/-!
## Schema materialization (`add_features`, lines 838-938) and the delta
columns (`generate_delta_data`, lines 1302-1390)
-/

/-- A pandas column as `add_features` creates it: an integer, float, or
boolean series. -/
inductive Column
  | ints (cells : List ℤ)
  | floats (cells : List ℚ)
  | bools (cells : List Bool)
deriving Repr, DecidableEq

/-- Generic cell read `frame[key]` on a frame kept as an association list
of named columns. -/
def fget {β : Type} : List (String × β) → String → Option β
  | [], _ => none
  | (k, c) :: rest, key => if k = key then some c else fget rest key

/-- Generic column write `frame[key] = c`: replace an existing column of
that name, or append the column at the end. -/
def fset {β : Type} : List (String × β) → String → β → List (String × β)
  | [], key, c => [(key, c)]
  | (k, c0) :: rest, key, c =>
    if k = key then (k, c) :: rest else (k, c0) :: fset rest key c

/-- `add_features(frame, fdict, flen, prefix='')` (lines 920-938): the
default sequences `[0]*flen`, `[0.0]*flen`, `[False]*flen` are built, and
for each `(key, value)` of the schema the column `prefix.key` (bare `key`
when the prefix is empty) is assigned the default sequence of its kind; any
other kind raises `ValueError('Type to generate feature series not
found')`. -/
def add_features : List (String × Column) → List (String × FKind) → Nat →
    String → Except String (List (String × Column))
  | frame, [], _, _ => Except.ok frame
  | frame, (key, FKind.int) :: rest, flen, pfx =>
    add_features
      (fset frame (pkey pfx key) (Column.ints (List.replicate flen 0)))
      rest flen pfx
  | frame, (key, FKind.float) :: rest, flen, pfx =>
    add_features
      (fset frame (pkey pfx key) (Column.floats (List.replicate flen 0)))
      rest flen pfx
  | frame, (key, FKind.bool) :: rest, flen, pfx =>
    add_features
      (fset frame (pkey pfx key) (Column.bools (List.replicate flen false)))
      rest flen pfx
  | _, (_, FKind.other _) :: _, _, _ =>
    Except.error "Type to generate feature series not found"

/-- The default series `add_features` assigns for a schema kind (none for
a kind outside int/float/bool). -/
def defaultSeries (flen : Nat) : FKind → Option Column
  | FKind.int => some (Column.ints (List.replicate flen 0))
  | FKind.float => some (Column.floats (List.replicate flen 0))
  | FKind.bool => some (Column.bools (List.replicate flen false))
  | FKind.other _ => none

/-- `generate_delta_data(frame, fdict, prefix1, prefix2)` (lines 1385-1390):
for each schema key, assign column `delta.key := frame[prefix1.key] -
frame[prefix2.key]`; a missing operand column is a pandas `KeyError` naming
that column, and the pandas column subtraction is pointwise (both operands
carry the frame's own index). -/
def generate_delta_data : List (String × List ℚ) → List (String × FKind) →
    String → String → Except String (List (String × List ℚ))
  | frame, [], _, _ => Except.ok frame
  | frame, (key, _) :: rest, prefix1, prefix2 =>
    match fget frame (pkey prefix1 key) with
    | none => Except.error (pkey prefix1 key)
    | some c1 =>
      match fget frame (pkey prefix2 key) with
      | none => Except.error (pkey prefix2 key)
      | some c2 =>
        generate_delta_data
          (fset frame (pkey "delta" key)
            (List.zipWith (fun a b => a - b) c1 c2))
          rest prefix1 prefix2

theorem pkey_inj (pfx k k' : String) (h : pkey pfx k = pkey pfx k') :
    k = k' := by
  by_cases hp : pfx = ""
  · subst hp
    simpa [pkey] using h
  · rw [pkey_eq_append _ _ hp, pkey_eq_append _ _ hp] at h
    obtain ⟨d1⟩ := k
    obtain ⟨d2⟩ := k'
    have hd := congrArg String.data h
    simp [String.data_append] at hd
    exact congrArg String.mk hd

theorem pkey_delta_ne (p : String) (hp : p = "home" ∨ p = "away")
    (k k' : String) : pkey "delta" k ≠ pkey p k' := by
  intro h
  rcases hp with hp | hp <;>
  · subst hp
    rw [pkey_eq_append _ _ (by decide), pkey_eq_append _ _ (by decide)] at h
    have hd := congrArg String.data h
    simp [String.data_append, PSEP] at hd

theorem fget_fset_self {β : Type} (cols : List (String × β)) (key : String)
    (v : β) : fget (fset cols key v) key = some v := by
  induction cols with
  | nil => simp [fset, fget]
  | cons kv rest ih =>
    obtain ⟨k, w⟩ := kv
    by_cases hk : k = key
    · simp [fset, hk, fget]
    · simp [fset, hk, fget, ih]

theorem fget_fset_ne {β : Type} (cols : List (String × β))
    (key key' : String) (v : β) (h : key ≠ key') :
    fget (fset cols key v) key' = fget cols key' := by
  induction cols with
  | nil => simp [fset, fget, h]
  | cons kv rest ih =>
    obtain ⟨k, w⟩ := kv
    by_cases hk : k = key
    · subst hk
      simp [fset, fget, h]
    · simp [fset, hk, fget, ih]

theorem mem_map_fst_fset {β : Type} (cols : List (String × β))
    (key name : String) (v : β) (h : name ∈ cols.map (·.1)) :
    name ∈ (fset cols key v).map (·.1) := by
  induction cols with
  | nil => simp at h
  | cons kv rest ih =>
    obtain ⟨k, w⟩ := kv
    by_cases hk : k = key
    · subst hk
      simpa [fset] using h
    · simp only [fset, if_neg hk, List.map_cons, List.mem_cons] at h ⊢
      exact h.imp id ih

theorem keys_nodup_unique {β : Type} (l : List (String × β))
    (h : (l.map (·.1)).Nodup) (k : String) (v1 v2 : β)
    (h1 : (k, v1) ∈ l) (h2 : (k, v2) ∈ l) : v1 = v2 := by
  induction l with
  | nil => simp at h1
  | cons kv rest ih =>
    obtain ⟨k0, w⟩ := kv
    rw [List.map_cons, List.nodup_cons] at h
    rcases List.mem_cons.mp h1 with e1 | m1 <;>
      rcases List.mem_cons.mp h2 with e2 | m2
    · rw [Prod.mk.injEq] at e1 e2
      rw [e1.2, e2.2]
    · exfalso
      rw [Prod.mk.injEq] at e1
      exact h.1 (e1.1 ▸ List.mem_map_of_mem (·.1) m2)
    · exfalso
      rw [Prod.mk.injEq] at e2
      exact h.1 (e2.1 ▸ List.mem_map_of_mem (·.1) m1)
    · exact ih h.2 m1 m2

/-- Columns whose prefixed name differs from every column `add_features`
writes keep their value. -/
theorem add_features_untouched :
    ∀ (fdict : List (String × FKind)) (frame frame' : List (String × Column))
      (flen : Nat) (pfx key : String),
      add_features frame fdict flen pfx = Except.ok frame' →
      (∀ kv ∈ fdict, pkey pfx kv.1 ≠ key) →
      fget frame' key = fget frame key := by
  intro fdict
  induction fdict with
  | nil =>
    intro frame frame' flen pfx key h hk
    rw [add_features] at h
    cases h
    rfl
  | cons kv rest ih =>
    intro frame frame' flen pfx key h hk
    obtain ⟨k0, v0⟩ := kv
    have hne : pkey pfx k0 ≠ key := hk (k0, v0) (List.mem_cons_self _ _)
    have hrest : ∀ kv ∈ rest, pkey pfx kv.1 ≠ key :=
      fun kv hkv => hk kv (List.mem_cons_of_mem _ hkv)
    cases v0 with
    | int =>
      rw [add_features] at h
      rw [ih _ _ _ _ _ h hrest, fget_fset_ne _ _ _ _ hne]
    | float =>
      rw [add_features] at h
      rw [ih _ _ _ _ _ h hrest, fget_fset_ne _ _ _ _ hne]
    | bool =>
      rw [add_features] at h
      rw [ih _ _ _ _ _ h hrest, fget_fset_ne _ _ _ _ hne]
    | other s =>
      rw [add_features] at h
      exact Except.noConfusion h

/-- On success every schema entry with a unique key ends with its default
series under its prefixed name. -/
theorem add_features_write :
    ∀ (fdict : List (String × FKind)) (frame frame' : List (String × Column))
      (flen : Nat) (pfx : String),
      add_features frame fdict flen pfx = Except.ok frame' →
      (fdict.map (·.1)).Nodup →
      ∀ k v, (k, v) ∈ fdict →
        fget frame' (pkey pfx k) = defaultSeries flen v := by
  intro fdict
  induction fdict with
  | nil =>
    intro frame frame' flen pfx h hnd k v hm
    simp at hm
  | cons kv rest ih =>
    intro frame frame' flen pfx h hnd k v hm
    obtain ⟨k0, v0⟩ := kv
    rw [List.map_cons, List.nodup_cons] at hnd
    have hnotin : ∀ kv ∈ rest, pkey pfx kv.1 ≠ pkey pfx k0 := by
      intro kv hkv he
      exact hnd.1 ((pkey_inj _ _ _ he) ▸ List.mem_map_of_mem (·.1) hkv)
    rcases List.mem_cons.mp hm with he | hmr
    · rw [Prod.mk.injEq] at he
      obtain ⟨rfl, rfl⟩ := he
      cases v with
      | int =>
        rw [add_features] at h
        rw [add_features_untouched rest _ _ _ _ _ h hnotin, fget_fset_self]
        rfl
      | float =>
        rw [add_features] at h
        rw [add_features_untouched rest _ _ _ _ _ h hnotin, fget_fset_self]
        rfl
      | bool =>
        rw [add_features] at h
        rw [add_features_untouched rest _ _ _ _ _ h hnotin, fget_fset_self]
        rfl
      | other s =>
        rw [add_features] at h
        exact Except.noConfusion h
    · cases v0 with
      | int =>
        rw [add_features] at h
        exact ih _ _ _ _ h hnd.2 k v hmr
      | float =>
        rw [add_features] at h
        exact ih _ _ _ _ h hnd.2 k v hmr
      | bool =>
        rw [add_features] at h
        exact ih _ _ _ _ h hnd.2 k v hmr
      | other s =>
        rw [add_features] at h
        exact Except.noConfusion h

/-- `add_features` removes no existing column name. -/
theorem add_features_preserve :
    ∀ (fdict : List (String × FKind)) (frame frame' : List (String × Column))
      (flen : Nat) (pfx name : String),
      add_features frame fdict flen pfx = Except.ok frame' →
      name ∈ frame.map (·.1) → name ∈ frame'.map (·.1) := by
  intro fdict
  induction fdict with
  | nil =>
    intro frame frame' flen pfx name h hm
    rw [add_features] at h
    cases h
    exact hm
  | cons kv rest ih =>
    intro frame frame' flen pfx name h hm
    obtain ⟨k0, v0⟩ := kv
    cases v0 with
    | int =>
      rw [add_features] at h
      exact ih _ _ _ _ _ h (mem_map_fst_fset _ _ _ _ hm)
    | float =>
      rw [add_features] at h
      exact ih _ _ _ _ _ h (mem_map_fst_fset _ _ _ _ hm)
    | bool =>
      rw [add_features] at h
      exact ih _ _ _ _ _ h (mem_map_fst_fset _ _ _ _ hm)
    | other s =>
      rw [add_features] at h
      exact Except.noConfusion h

/-- A schema entry of a kind outside int/float/bool makes `add_features`
raise the `ValueError`. -/
theorem add_features_error :
    ∀ (fdict : List (String × FKind)) (frame : List (String × Column))
      (flen : Nat) (pfx : String),
      (∃ k s, (k, FKind.other s) ∈ fdict) →
      add_features frame fdict flen pfx =
        Except.error "Type to generate feature series not found" := by
  intro fdict
  induction fdict with
  | nil =>
    intro frame flen pfx h
    obtain ⟨k, s, hm⟩ := h
    simp at hm
  | cons kv rest ih =>
    intro frame flen pfx h
    obtain ⟨k, s, hm⟩ := h
    obtain ⟨k0, v0⟩ := kv
    cases v0 with
    | int =>
      rcases List.mem_cons.mp hm with he | hmr
      · exact absurd (congrArg Prod.snd he) (by simp)
      · rw [add_features]
        exact ih _ _ _ ⟨k, s, hmr⟩
    | float =>
      rcases List.mem_cons.mp hm with he | hmr
      · exact absurd (congrArg Prod.snd he) (by simp)
      · rw [add_features]
        exact ih _ _ _ ⟨k, s, hmr⟩
    | bool =>
      rcases List.mem_cons.mp hm with he | hmr
      · exact absurd (congrArg Prod.snd he) (by simp)
      · rw [add_features]
        exact ih _ _ _ ⟨k, s, hmr⟩
    | other s0 =>
      rw [add_features]

/-- A schema with only int/float/bool kinds always succeeds. -/
theorem add_features_total :
    ∀ (fdict : List (String × FKind)) (frame : List (String × Column))
      (flen : Nat) (pfx : String),
      (∀ kv ∈ fdict, ∀ s, kv.2 ≠ FKind.other s) →
      ∃ fr, add_features frame fdict flen pfx = Except.ok fr := by
  intro fdict
  induction fdict with
  | nil =>
    intro frame flen pfx h
    exact ⟨frame, rfl⟩
  | cons kv rest ih =>
    intro frame flen pfx h
    obtain ⟨k0, v0⟩ := kv
    have hrest : ∀ kv ∈ rest, ∀ s, kv.2 ≠ FKind.other s :=
      fun kv hkv => h kv (List.mem_cons_of_mem _ hkv)
    cases v0 with
    | int =>
      obtain ⟨fr, hfr⟩ := ih (fset frame (pkey pfx k0)
        (Column.ints (List.replicate flen 0))) flen pfx hrest
      exact ⟨fr, by rw [add_features]; exact hfr⟩
    | float =>
      obtain ⟨fr, hfr⟩ := ih (fset frame (pkey pfx k0)
        (Column.floats (List.replicate flen 0))) flen pfx hrest
      exact ⟨fr, by rw [add_features]; exact hfr⟩
    | bool =>
      obtain ⟨fr, hfr⟩ := ih (fset frame (pkey pfx k0)
        (Column.bools (List.replicate flen false))) flen pfx hrest
      exact ⟨fr, by rw [add_features]; exact hfr⟩
    | other s =>
      exact absurd rfl (h (k0, FKind.other s) (List.mem_cons_self _ _) s)

/-- Columns whose name differs from every `delta.`-prefixed name the
schema can produce keep their value across `generate_delta_data`. -/
theorem gdd_untouched :
    ∀ (fdict : List (String × FKind)) (frame frame' : List (String × List ℚ))
      (p1 p2 key : String),
      generate_delta_data frame fdict p1 p2 = Except.ok frame' →
      (∀ kv ∈ fdict, pkey "delta" kv.1 ≠ key) →
      fget frame' key = fget frame key := by
  intro fdict
  induction fdict with
  | nil =>
    intro frame frame' p1 p2 key h hk
    rw [generate_delta_data] at h
    cases h
    rfl
  | cons kv rest ih =>
    intro frame frame' p1 p2 key h hk
    obtain ⟨k0, v0⟩ := kv
    have hne : pkey "delta" k0 ≠ key := hk (k0, v0) (List.mem_cons_self _ _)
    have hrest : ∀ kv ∈ rest, pkey "delta" kv.1 ≠ key :=
      fun kv hkv => hk kv (List.mem_cons_of_mem _ hkv)
    rw [generate_delta_data] at h
    cases h1 : fget frame (pkey p1 k0) with
    | none =>
      rw [h1] at h
      exact Except.noConfusion h
    | some c1 =>
      rw [h1] at h
      cases h2 : fget frame (pkey p2 k0) with
      | none =>
        rw [h2] at h
        exact Except.noConfusion h
      | some c2 =>
        rw [h2] at h
        rw [ih _ _ _ _ _ h hrest, fget_fset_ne _ _ _ _ hne]

/-- On success, each schema key with a unique name gets
`delta.key = prefix1.key - prefix2.key` pointwise, reading the operand
columns of the input frame (the delta names collide with no operand
name). -/
theorem gdd_write :
    ∀ (fdict : List (String × FKind)) (frame frame' : List (String × List ℚ))
      (p1 p2 : String),
      generate_delta_data frame fdict p1 p2 = Except.ok frame' →
      (fdict.map (·.1)).Nodup →
      (∀ k k' : String, pkey "delta" k ≠ pkey p1 k') →
      (∀ k k' : String, pkey "delta" k ≠ pkey p2 k') →
      ∀ k v c1 c2, (k, v) ∈ fdict →
        fget frame (pkey p1 k) = some c1 →
        fget frame (pkey p2 k) = some c2 →
        fget frame' (pkey "delta" k) =
          some (List.zipWith (fun a b => a - b) c1 c2) := by
  intro fdict
  induction fdict with
  | nil =>
    intro frame frame' p1 p2 h hnd hd1 hd2 k v c1 c2 hm
    simp at hm
  | cons kv rest ih =>
    intro frame frame' p1 p2 h hnd hd1 hd2 k v c1 c2 hm hc1 hc2
    obtain ⟨k0, v0⟩ := kv
    rw [List.map_cons, List.nodup_cons] at hnd
    rw [generate_delta_data] at h
    cases h1 : fget frame (pkey p1 k0) with
    | none =>
      rw [h1] at h
      exact Except.noConfusion h
    | some d1 =>
      rw [h1] at h
      cases h2 : fget frame (pkey p2 k0) with
      | none =>
        rw [h2] at h
        exact Except.noConfusion h
      | some d2 =>
        rw [h2] at h
        rcases List.mem_cons.mp hm with he | hmr
        · rw [Prod.mk.injEq] at he
          obtain ⟨rfl, rfl⟩ := he
          rw [h1] at hc1
          rw [h2] at hc2
          obtain rfl : d1 = c1 := Option.some.inj hc1
          obtain rfl : d2 = c2 := Option.some.inj hc2
          have hnotin : ∀ kv ∈ rest, pkey "delta" kv.1 ≠ pkey "delta" k := by
            intro kv hkv he
            exact hnd.1 ((pkey_inj _ _ _ he) ▸ List.mem_map_of_mem (·.1) hkv)
          rw [gdd_untouched rest _ _ _ _ _ h hnotin, fget_fset_self]
        · refine ih _ _ _ _ h hnd.2 hd1 hd2 k v c1 c2 hmr ?_ ?_
          · rw [fget_fset_ne _ _ _ _ (hd1 k0 k), hc1]
          · rw [fget_fset_ne _ _ _ _ (hd2 k0 k), hc2]

/-- C6. Delta invariant: after `generate_delta_data` runs on the merged
model frame with the merge dictionary, every non-boolean schema feature X
has column `delta.X = home.X - away.X` (as columns, hence in every row);
boolean schema fields are outside the merge dictionary and get no delta
column; columns away from the delta names are untouched. -/
theorem C6_delta_invariant (frame frame' : List (String × List ℚ))
    (h : generate_delta_data frame mdict "home" "away" = Except.ok frame') :
    (∀ k v c1 c2, (k, v) ∈ mdict →
      fget frame (pkey "home" k) = some c1 →
      fget frame (pkey "away" k) = some c2 →
      fget frame' (pkey "delta" k) =
        some (List.zipWith (fun a b => a - b) c1 c2) ∧
      ∀ (i : Nat) (h1 : i < c1.length) (h2 : i < c2.length),
        (List.zipWith (fun a b => a - b) c1 c2)[i]? = some (c1[i] - c2[i])) ∧
    (∀ k, (k, FKind.bool) ∈ sports_dict →
      k ∉ mdictKeys ∧
      fget frame' (pkey "delta" k) = fget frame (pkey "delta" k)) ∧
    (∀ key, (∀ k ∈ mdictKeys, pkey "delta" k ≠ key) →
      fget frame' key = fget frame key) := by
  have hnd : (mdict.map (·.1)).Nodup := by decide
  refine ⟨?_, ?_, ?_⟩
  · intro k v c1 c2 hm hc1 hc2
    refine ⟨gdd_write mdict frame frame' _ _ h hnd
      (fun a b => pkey_delta_ne "home" (Or.inl rfl) a b)
      (fun a b => pkey_delta_ne "away" (Or.inr rfl) a b) k v c1 c2 hm hc1 hc2,
      ?_⟩
    intro i h1 h2
    rw [List.getElem?_eq_getElem (by rw [List.length_zipWith]; omega)]
    rw [List.getElem_zipWith]
  · intro k hk
    have hnotmem : k ∉ mdictKeys := by
      intro hmem
      simp only [mdictKeys] at hmem
      obtain ⟨⟨k', v'⟩, hm', he⟩ := List.mem_map.mp hmem
      dsimp at he
      subst he
      have hv' := List.of_mem_filter hm'
      have hsp : (k', v') ∈ sports_dict := List.mem_of_mem_filter hm'
      have hb : v' = FKind.bool :=
        keys_nodup_unique sports_dict (by decide) k' v' FKind.bool hsp hk
      simp [hb] at hv'
    refine ⟨hnotmem, ?_⟩
    refine gdd_untouched mdict frame frame' _ _ _ h ?_
    intro kv hkv he
    refine hnotmem ?_
    rw [← pkey_inj "delta" kv.1 k he]
    exact List.mem_map_of_mem (·.1) hkv
  · intro key hkey
    refine gdd_untouched mdict frame frame' _ _ _ h ?_
    intro kv hkv
    exact hkey kv.1 (List.mem_map_of_mem (·.1) hkv)

/-- A merged model frame carrying an empty (zero-game) column for every
home- and away-prefixed merge-dictionary key. -/
def c6frame : List (String × List ℚ) :=
  mdictKeys.map (fun k => (pkey "home" k, ([] : List ℚ))) ++
  mdictKeys.map (fun k => (pkey "away" k, ([] : List ℚ)))

/-- The frame `generate_delta_data` produces from `c6frame`: the delta
columns are appended in schema order. -/
def c6out : List (String × List ℚ) :=
  c6frame ++ mdictKeys.map (fun k => (pkey "delta" k, ([] : List ℚ)))

set_option maxRecDepth 20000 in
theorem C6_delta_invariant_witness :
    fget c6out (pkey "delta" "wins") = some [] ∧ "over" ∉ mdictKeys := by
  have h := C6_delta_invariant c6frame c6out (by rfl)
  constructor
  · have h1 := (h.1 "wins" FKind.int [] [] (by decide) (by decide)
      (by decide)).1
    simpa using h1
  · exact (h.2.1 "over" (by decide)).1

/-- C9. Schema materialization: on a schema with unique names,
`add_features` adds one column per (name, kind) entry filled with `flen`
default values of its kind under the prefixed name, removes no existing
column, raises the `ValueError` exactly when a kind outside int/float/bool
occurs, and on the one-int-field scenario produces the five-zero column
with no exception. -/
theorem C9_schema_materialization (frame frame' : List (String × Column))
    (fdict : List (String × FKind)) (flen : Nat) (pfx : String)
    (hnodup : (fdict.map (·.1)).Nodup) :
    (add_features frame fdict flen pfx = Except.ok frame' →
      (∀ k v, (k, v) ∈ fdict →
        fget frame' (pkey pfx k) = defaultSeries flen v) ∧
      (∀ name, name ∈ frame.map (·.1) → name ∈ frame'.map (·.1))) ∧
    ((∃ k s, (k, FKind.other s) ∈ fdict) →
      add_features frame fdict flen pfx =
        Except.error "Type to generate feature series not found") ∧
    ((∀ kv ∈ fdict, ∀ s, kv.2 ≠ FKind.other s) →
      ∃ fr, add_features frame fdict flen pfx = Except.ok fr) ∧
    add_features [] [("wins", FKind.int)] 5 "" =
      Except.ok [("wins", Column.ints [0, 0, 0, 0, 0])] := by
  refine ⟨fun h => ⟨?_, ?_⟩, ?_, ?_, rfl⟩
  · exact fun k v hm =>
      add_features_write fdict frame frame' flen pfx h hnodup k v hm
  · exact fun name hn =>
      add_features_preserve fdict frame frame' flen pfx name h hn
  · exact fun he => add_features_error fdict frame flen pfx he
  · exact fun ht => add_features_total fdict frame flen pfx ht

theorem C9_schema_materialization_witness :
    fget [("wins", Column.ints [0, 0, 0, 0, 0])] "wins" =
      some (Column.ints [0, 0, 0, 0, 0]) ∧
    add_features [] [("wins", FKind.int)] 5 "" =
      Except.ok [("wins", Column.ints [0, 0, 0, 0, 0])] := by
  have h := C9_schema_materialization ([] : List (String × Column))
    [("wins", Column.ints [0, 0, 0, 0, 0])] [("wins", FKind.int)] 5 ""
    (by decide)
  refine ⟨?_, h.2.2.2⟩
  have h1 := (h.1 (by rfl)).1 "wins" FKind.int (by decide)
  exact h1.trans (by rfl)


end Sportstream
